import Mathlib

/-!
# support.cc of gptfdisk: a shallow embedding

The interactive readers and the GUID codec of `support.cc` are embedded as pure
functions.

* C strings are `List Char` (no NUL inside).
* `uint64_t` / `unsigned long long` values are `Nat`, reduced `% 2^64` wherever the C
  arithmetic can wrap.
* `int` values are `Int`.  Signed overflow (`low - 1` for `low = INT_MIN`) is undefined
  behaviour in C and is left outside the model: `int` arithmetic is exact.
* The terminal is a `Console`: `stdin` is the list of buffers that successive
  `fgets(line, 255, stdin)` calls deliver (each at most 254 characters, a newline only
  as last character), `stdout` is the list of chunks written so far.
* A function that blocks for ever (or runs into undefined behaviour) because the
  input is exhausted yields `none`.
-/

namespace Support

/-! ## The C library pieces the source calls -/

/-- The 64-bit modulus. -/
def U64 : Nat := 2 ^ 64

/-- C `isspace` in the "C" locale. -/
def isspace (c : Char) : Bool :=
  c == ' ' || c == '\t' || c == '\n' || c == '\x0b' || c == '\x0c' || c == '\r'

/-- C `isdigit`. -/
def isdigit (c : Char) : Bool := decide (48 ≤ c.toNat) && decide (c.toNat ≤ 57)

/-- Value of a hexadecimal digit character, `none` for any other character. -/
def hexVal (c : Char) : Option Nat :=
  if 48 ≤ c.toNat ∧ c.toNat ≤ 57 then some (c.toNat - 48)
  else if 65 ≤ c.toNat ∧ c.toNat ≤ 70 then some (c.toNat - 55)
  else if 97 ≤ c.toNat ∧ c.toNat ≤ 102 then some (c.toNat - 87)
  else none

/-- C `isxdigit`. -/
def isxdigit (c : Char) : Bool := (hexVal c).isSome

/-- The uppercase hexadecimal digit `printf` writes for a value below 16. -/
def hexChar (d : Nat) : Char :=
  if d < 10 then Char.ofNat (48 + d) else Char.ofNat (55 + d)

/-- Digits of `v` as `%llX` writes them, most significant first: the loop of
`printf` divides by 16 until the quotient is zero; `fuel` bounds the number of
digits (16 for a 64-bit value). -/
def hexDigitsAux : Nat → Nat → List Char → List Char
  | 0, _, acc => acc
  | fuel + 1, v, acc =>
    if v / 16 = 0 then hexChar (v % 16) :: acc
    else hexDigitsAux fuel (v / 16) (hexChar (v % 16) :: acc)

/-- Conversion `%0<width>llX` of `printf`: uppercase hexadecimal of the 64-bit
value `v`, padded on the left with `'0'` to at least `width` characters. -/
def fmtX (width v : Nat) : List Char :=
  let ds := hexDigitsAux 16 (v % U64) []
  List.replicate (width - ds.length) '0' ++ ds

/-! ## GUIDs -/

/-- The `struct GUIDData` of support.h: two 64-bit words. -/
structure GUIDData where
  data1 : Nat
  data2 : Nat
  deriving DecidableEq, Repr

/-- Code of `GUIDToStr`: every `sprintf(theString, "%s...", theString, block)` appends
one formatted block to the string built so far. -/
def GUIDToStr (theGUID : GUIDData) : List Char :=
  let s := fmtX 8 (theGUID.data1 &&& 0x00000000FFFFFFFF) ++ ['-']
  let s := s ++ fmtX 4 ((theGUID.data1 &&& 0x0000FFFF00000000) >>> 32) ++ ['-']
  let s := s ++ fmtX 4 ((theGUID.data1 &&& 0xFFFF000000000000) >>> 48) ++ ['-']
  let s := s ++ fmtX 2 (theGUID.data2 &&& 0x00000000000000FF)
  let s := s ++ fmtX 2 ((theGUID.data2 &&& 0x000000000000FF00) >>> 8) ++ ['-']
  let s := s ++ fmtX 2 ((theGUID.data2 &&& 0x0000000000FF0000) >>> 16)
  let s := s ++ fmtX 2 ((theGUID.data2 &&& 0x00000000FF000000) >>> 24)
  let s := s ++ fmtX 2 ((theGUID.data2 &&& 0x000000FF00000000) >>> 32)
  let s := s ++ fmtX 2 ((theGUID.data2 &&& 0x0000FF0000000000) >>> 40)
  let s := s ++ fmtX 2 ((theGUID.data2 &&& 0x00FF000000000000) >>> 48)
  let s := s ++ fmtX 2 ((theGUID.data2 &&& 0xFF00000000000000) >>> 56)
  s

/-! ## `sscanf` conversions -/

/-- Optional sign in front of a number: `(negative, rest)`. -/
def scanSign : List Char → Bool × List Char
  | '-' :: r => (true, r)
  | '+' :: r => (false, r)
  | s => (false, s)

/-- Value of a run of decimal digits. -/
def decValue (ds : List Char) : Nat :=
  ds.foldl (fun a c => 10 * a + (c.toNat - 48)) 0

/-- Value of a run of hexadecimal digits. -/
def hexValue (ds : List Char) : Nat :=
  ds.foldl (fun a c => 16 * a + (hexVal c).getD 0) 0

/-- What `strtoull` returns for magnitude `v` and sign `neg`: `ULLONG_MAX` when the
magnitude does not fit, the two's complement when it is negated. -/
def toU64 (neg : Bool) (v : Nat) : Nat :=
  if U64 ≤ v then U64 - 1 else if neg then (U64 - v) % U64 else v

/-- What `%d` stores for magnitude `v` and sign `neg`: `strtol` clamps to the range
of `long` (64 bits), the store to an `int` keeps the low 32 bits. -/
def toInt32 (neg : Bool) (v : Nat) : Int :=
  let x : Int := if neg then -(v : Int) else (v : Int)
  let l : Int := if x < -(2 ^ 63) then -(2 ^ 63) else if 2 ^ 63 - 1 < x then 2 ^ 63 - 1 else x
  (l + 2 ^ 31) % 2 ^ 32 - 2 ^ 31

/-- The call `sscanf(line, "%d", &response)`: `(num, response)`.  White space is
skipped, then an optional sign and at least one decimal digit are converted.
`num` is `1` on success, `0` on a matching failure, `-1` (EOF) when the string ends
before anything is found; `response` is untouched unless `num = 1`. -/
def sscanf_d (line : List Char) (response : Int) : Int × Int :=
  match line.dropWhile isspace with
  | [] => (-1, response)
  | s =>
    let (neg, s1) := scanSign s
    match s1.takeWhile isdigit with
    | [] => (0, response)
    | ds => (1, toInt32 neg (decValue ds))

/-- The call `sscanf(line, "%llu%c", &response, &suffix)`: `(num, response, suffix)`.
`num` counts the conversions done (`-1` for EOF before the first); a variable whose
conversion was not done keeps its old value. -/
def sscanf_llu_c (line : List Char) (response : Nat) (suffix : Char) : Int × Nat × Char :=
  match line.dropWhile isspace with
  | [] => (-1, response, suffix)
  | s =>
    let (neg, s1) := scanSign s
    match s1.takeWhile isdigit with
    | [] => (0, response, suffix)
    | ds =>
      match s1.dropWhile isdigit with
      | [] => (1, toU64 neg (decValue ds), suffix)
      | c :: _ => (2, toU64 neg (decValue ds), c)

/-- The call `sscanf(s, "%llx", &part)`, as the new value of `part`: white space is
skipped, then an optional sign, an optional `0x`/`0X` and hexadecimal digits are
converted; on failure `part` keeps its old (possibly indeterminate) value. -/
def sscanf_llx (s : List Char) (part : Nat) : Nat :=
  let (neg, s1) := scanSign (s.dropWhile isspace)
  match s1 with
  | '0' :: 'x' :: r => toU64 neg (hexValue (r.takeWhile isxdigit))
  | '0' :: 'X' :: r => toU64 neg (hexValue (r.takeWhile isxdigit))
  | _ =>
    match s1.takeWhile isxdigit with
    | [] => part
    | ds => toU64 neg (hexValue ds)

/-! ## The terminal -/

/-- Standard input as the buffers successive `fgets` calls deliver, standard output
as the chunks written so far. -/
structure Console where
  stdin : List (List Char)
  stdout : List (List Char)
  deriving DecidableEq, Repr

/-! ## `GetGUID` -/

/-- Code of `strncpy(temp2, &temp[pos], n); temp2[n] = '\0';`. -/
def substr (temp : List Char) (pos n : Nat) : List Char := (temp.drop pos).take n

/-- Field B as `GetGUID` packs it from the fourth and fifth segments. -/
def packData2 (part4 part5 : Nat) : Nat :=
  (((part4 &&& 0x000000000000FF00) >>> 8) +
   ((part4 &&& 0x00000000000000FF) <<< 8) +
   ((part5 &&& 0x0000FF0000000000) >>> 24) +
   ((part5 &&& 0x000000FF00000000) >>> 8) +
   ((part5 &&& 0x00000000FF000000) <<< 8) +
   ((part5 &&& 0x0000000000FF0000) <<< 24) +
   ((part5 &&& 0x000000000000FF00) <<< 40) +
   ((part5 &&& 0x00000000000000FF) <<< 56)) % U64

/-- Field A as `GetGUID` packs it from the first three segments. -/
def packData1 (part1 part2 part3 : Nat) : Nat :=
  ((part3 <<< 48) % U64 + (part2 <<< 32) % U64 + part1) % U64

/-- The indeterminate start values of the locals `part1 .. part5` of `GetGUID`. -/
structure Parts where
  part1 : Nat
  part2 : Nat
  part3 : Nat
  part4 : Nat
  part5 : Nat

/-- The banner `GetGUID` prints first. -/
def guidBanner : List (List Char) :=
  ["\nA GUID is entered in five segments of from two to six bytes, with\ndashes between segments.\n".toList,
   "Enter the entire GUID, a four-byte hexadecimal number for the first segment, or\n'R' to generate the entire GUID randomly: ".toList]

/-- One `fgets(temp, 255, stdin)` whose result is not checked: at end of input the
buffer keeps its content. -/
def fgetsKeep (temp : List Char) : List (List Char) → List Char × List (List Char)
  | [] => (temp, [])
  | l :: rest => (l, rest)

/-- Code of `GetGUID`.  `rnd` are the four values the calls of `rand()` return,
`junk` the indeterminate start values of `part1 .. part5`.  With no input at all the
first buffer is indeterminate and the result is `none`. -/
def GetGUID (rnd : Nat × Nat × Nat × Nat) (junk : Parts) (c : Console) :
    Option (GUIDData × Console) :=
  match c.stdin with
  | [] => none
  | temp :: rest =>
    let out := c.stdout ++ guidBanner
    if temp.head? = some 'r' || temp.head? = some 'R' then
      let g : GUIDData := ⟨(rnd.1 * rnd.2.1) % U64, (rnd.2.2.1 * rnd.2.2.2) % U64⟩
      some (g, ⟨rest, out ++ ["New GUID: ".toList ++ GUIDToStr g ++ ['\n']]⟩)
    else if temp.length = 37 then
      let part1 := sscanf_llx (substr temp 0 8) junk.part1
      let part2 := sscanf_llx (substr temp 9 4) junk.part2
      let part3 := sscanf_llx (substr temp 14 4) junk.part3
      let data1 := packData1 part1 part2 part3
      let part4 := sscanf_llx (substr temp 19 4) junk.part4
      let part5 := sscanf_llx (substr temp 24 12) junk.part5
      let g : GUIDData := ⟨data1, packData2 part4 part5⟩
      some (g, ⟨rest, out ++ ["New GUID: ".toList ++ GUIDToStr g ++ ['\n']]⟩)
    else
      let part1 := sscanf_llx temp junk.part1
      let out := out ++ ["Enter a two-byte hexadecimal number for the second segment: ".toList]
      let (temp, rest) := fgetsKeep temp rest
      let part2 := sscanf_llx temp junk.part2
      let out := out ++ ["Enter a two-byte hexadecimal number for the third segment: ".toList]
      let (temp, rest) := fgetsKeep temp rest
      let part3 := sscanf_llx temp junk.part3
      let data1 := packData1 part1 part2 part3
      let out := out ++ ["Enter a two-byte hexadecimal number for the fourth segment: ".toList]
      let (temp, rest) := fgetsKeep temp rest
      let part4 := sscanf_llx temp junk.part4
      let out := out ++ ["Enter a six-byte hexadecimal number for the fifth segment: ".toList]
      let (temp, rest) := fgetsKeep temp rest
      let part5 := sscanf_llx temp junk.part5
      let g : GUIDData := ⟨data1, packData2 part4 part5⟩
      some (g, ⟨rest, out ++ ["New GUID: ".toList ++ GUIDToStr g ++ ['\n']]⟩)

/-! ## `GetNumber` -/

/-- The guard `(response < low) || (response > high)` of the loop of `GetNumber`. -/
def outOfRange (low high response : Int) : Bool :=
  decide (response < low) || decide (response > high)

/-- The `while` loop of `GetNumber`, from its guard on, with the current `response`,
the input not yet read and the output written so far.  `printf(prompt)` writes the
prompt.  At the end of the input a required line never comes: `none`. -/
def GetNumberLoop (low high dflt : Int) (prompt : List Char) :
    Int → List (List Char) → List (List Char) → Option (Int × Console)
  | response, [], out =>
    if outOfRange low high response then none else some (response, ⟨[], out⟩)
  | response, line :: rest, out =>
    if outOfRange low high response then
      let out := out ++ [prompt]
      let (num, response) := sscanf_d line response
      if num = 1 then
        if outOfRange low high response then
          GetNumberLoop low high dflt prompt response rest (out ++ ["Value out of range\n".toList])
        else
          GetNumberLoop low high dflt prompt response rest out
      else
        GetNumberLoop low high dflt prompt dflt rest out
    else some (response, ⟨line :: rest, out⟩)

/-- Code of `GetNumber(low, high, def, prompt)`: the value returned and the terminal
afterwards. -/
def GetNumber (low high dflt : Int) (prompt : List Char) (c : Console) :
    Option (Int × Console) :=
  if low ≠ high then
    GetNumberLoop low high dflt prompt (low - 1) c.stdin c.stdout
  else
    some (low, ⟨c.stdin, c.stdout ++ ["Using ".toList ++ (toString low).toList ++ ['\n']]⟩)

/-! ## `GetLastSector` -/

/-- Modelled from the spec: the macro `SECTOR_SIZE` of support.h, which is not part of
the sources at hand; the spec gives the sector size as 512. -/
def SECTOR_SIZE : Nat := 512

/-- The locals of `GetLastSector` that live across iterations of its loop. -/
structure LSState where
  response : Nat
  plusFlag : Int
  suffix : Char
  deriving DecidableEq, Repr

/-- The `switch (suffix)` of `GetLastSector`: the multiplier `mult`. -/
def multOf (suffix : Char) : Nat :=
  if suffix = 'K' ∨ suffix = 'k' then 1024 / SECTOR_SIZE
  else if suffix = 'M' ∨ suffix = 'm' then 1048576 / SECTOR_SIZE
  else if suffix = 'G' ∨ suffix = 'g' then 1073741824 / SECTOR_SIZE
  else if suffix = 'T' ∨ suffix = 't' then ((1073741824 * 1024) % U64) / SECTOR_SIZE
  else 1

/-- One pass through the body of the loop of `GetLastSector` on the buffer `line`
that `fgets` delivered. -/
def lastSectorBody (low high : Nat) (st : LSState) (line : List Char) : LSState :=
  -- Remove leading spaces, if present
  let line := line.dropWhile (fun c => c == ' ')
  -- If present, flag and remove leading plus sign
  let plusFlag : Int := if line.head? = some '+' then 1 else st.plusFlag
  let line := if line.head? = some '+' then line.drop 1 else line
  -- Extract numeric response and, if present, suffix
  let (num, response, suffix) := sscanf_llu_c line st.response st.suffix
  -- If no response, use default: The high value
  let response := if num ≤ 0 then high else response
  let suffix := if num ≤ 0 then ' ' else suffix
  let plusFlag := if num ≤ 0 then 0 else plusFlag
  -- Set multiplier based on suffix
  let mult := multOf suffix
  -- Adjust response based on multiplier and plus flag, if present
  let response := (response * mult) % U64
  let response := if plusFlag = 1 then (response + low + (U64 - 1)) % U64 else response
  ⟨response, plusFlag, suffix⟩

/-- The guard `(response < low) || (response > high)` of the loop of `GetLastSector`. -/
def lsGuard (low high : Nat) (st : LSState) : Bool :=
  decide (st.response < low) || decide (st.response > high)

/-- The `while` loop of `GetLastSector`, from its guard on.  At the end of the input a
required line never comes: `none`. -/
def GetLastSectorLoop (low high : Nat) (prompt : List Char) :
    LSState → List (List Char) → List (List Char) → Option (Nat × Console)
  | st, [], out =>
    if lsGuard low high st then none else some (st.response, ⟨[], out⟩)
  | st, line :: rest, out =>
    if lsGuard low high st then
      GetLastSectorLoop low high prompt (lastSectorBody low high st line) rest (out ++ [prompt])
    else some (st.response, ⟨line :: rest, out⟩)

/-- The locals of `GetLastSector` when its loop is reached: `response = low - 1` in
64-bit arithmetic, `plusFlag = 0`, and `suffix` still indeterminate (`suffix0`). -/
def lsInit (low : Nat) (suffix0 : Char) : LSState :=
  ⟨(low + (U64 - 1)) % U64, 0, suffix0⟩

/-- Code of `GetLastSector(low, high, prompt)`: the value returned and the terminal
afterwards.  `suffix0` is the indeterminate start value of the local `suffix`. -/
def GetLastSector (low high : Nat) (prompt : List Char) (suffix0 : Char) (c : Console) :
    Option (Nat × Console) :=
  GetLastSectorLoop low high prompt (lsInit low suffix0) c.stdin c.stdout

/-! ## Reference renderings used to state the GUID layout -/

/-- The `n` low hexadecimal digits of `v`, most significant first, by recursion on
`n` (proof-side form of `hexN`). -/
def hexFixed : Nat → Nat → List Char
  | 0, _ => []
  | n + 1, v => hexFixed n (v / 16) ++ [hexChar (v % 16)]

/-- The uppercase hexadecimal digit of a value below 16, read off the digit table. -/
def specHexDigit (d : Nat) : Char := "0123456789ABCDEF".toList.getD d '0'

/-- The zero-padded `n`-digit uppercase hexadecimal rendering of `v`: digit `i` from
the left is the digit of weight `16 ^ (n - 1 - i)`. -/
def hexN (n v : Nat) : List Char :=
  (List.range n).map (fun i => specHexDigit ((v / 16 ^ (n - 1 - i)) % 16))

/-- Byte `i` of a word, `(B >> 8i) & 0xFF`. -/
def byteOf (B i : Nat) : Nat := (B >>> (8 * i)) &&& 0xFF

/-- The GUID string layout as the specification words it: field A in three groups of
32, 16 and 16 bits, then the bytes of field B in ascending byte-index order. -/
def specGUIDLayout (A B : Nat) : List Char :=
  hexN 8 (A % 2 ^ 32) ++ ['-'] ++ hexN 4 ((A / 2 ^ 32) % 2 ^ 16) ++ ['-'] ++
  hexN 4 ((A / 2 ^ 48) % 2 ^ 16) ++ ['-'] ++
  hexN 2 (byteOf B 0) ++ hexN 2 (byteOf B 1) ++ ['-'] ++
  hexN 2 (byteOf B 2) ++ hexN 2 (byteOf B 3) ++ hexN 2 (byteOf B 4) ++
  hexN 2 (byteOf B 5) ++ hexN 2 (byteOf B 6) ++ hexN 2 (byteOf B 7)

/-- An uppercase hexadecimal digit: `0-9` or `A-F`. -/
def isUpperHexDigit (c : Char) : Bool :=
  (decide ('0' ≤ c) && decide (c ≤ '9')) || (decide ('A' ≤ c) && decide (c ≤ 'F'))

/-! ## Reference predicates on input lines -/

/-- A line starts with a base-10 integer in the sense of `%d`: after the white space
and an optional sign comes a decimal digit.  A blank line does not. -/
def startsWithInt (line : List Char) : Bool :=
  match (scanSign (line.dropWhile isspace)).2 with
  | [] => false
  | c :: _ => isdigit c

/-- A line holds a number for `GetLastSector`: after stripping the leading spaces and
one leading `+`, the text starts a number in the sense of `%llu` (white space, an
optional sign, a decimal digit).  A blank line does not. -/
def startsNumber (line : List Char) : Bool :=
  let l := line.dropWhile (fun c => c == ' ')
  startsWithInt (if l.head? = some '+' then l.drop 1 else l)

/-- The suffix multipliers in sectors of 512 bytes, as the specification lists them. -/
def specMult (c : Char) : Nat :=
  match c with
  | 'K' => 2
  | 'k' => 2
  | 'M' => 2048
  | 'm' => 2048
  | 'G' => 2097152
  | 'g' => 2097152
  | 'T' => 2147483648
  | 't' => 2147483648
  | _ => 1

/-! ## `GetYN` -/

/-- The call `sscanf(line, "%c", &response)`, as the new value of `response`: the first
character of the buffer (white space is not skipped), the old value when the buffer is
empty. -/
def sscanf_c (line : List Char) (response : Char) : Char :=
  match line with
  | [] => response
  | c :: _ => c

/-- The guard `(response != 'Y') && (response != 'N')` of the loop of `GetYN`. -/
def ynGuard (response : Char) : Bool := response != 'Y' && response != 'N'

/-- The `while` loop of `GetYN`, from its guard on.  At the end of the input a required
line never comes: `none`. -/
def GetYNLoop : Char → List (List Char) → List (List Char) → Option (Char × Console)
  | response, [], out =>
    if ynGuard response then none else some (response, ⟨[], out⟩)
  | response, line :: rest, out =>
    if ynGuard response then
      let out := out ++ ["(Y/N): ".toList]
      let response := sscanf_c line response
      let response := if response = 'y' then 'Y' else response
      let response := if response = 'n' then 'N' else response
      GetYNLoop response rest out
    else some (response, ⟨line :: rest, out⟩)

/-- Code of `GetYN()`: `response` starts as the NUL character. -/
def GetYN (c : Console) : Option (Char × Console) :=
  GetYNLoop '\x00' c.stdin c.stdout

/-! ## `PowerOf2` -/

/-- The `for` loop of `PowerOf2`: `n` times `retval *= 2` in 64-bit arithmetic. -/
def PowerOf2Loop : Nat → Nat → Nat
  | 0, retval => retval
  | n + 1, retval => PowerOf2Loop n ((retval * 2) % U64)

/-- Code of `PowerOf2(value)`. -/
def PowerOf2 (value : Int) : Nat :=
  if value < 64 ∧ value ≥ 0 then PowerOf2Loop value.toNat 1 else 0

/-! ## `ReverseBytes` -/

/-- Code of `ReverseBytes(theValue, numBytes)`, as the new content of the buffer
`theValue`.  `heap` gives the indeterminate content of the block `malloc` returns.
The first loop copies `theValue[i]` to `tempValue[i]`, the second stores
`tempValue[numBytes - i - 1]` in `theValue[i]`, for `i = 0 .. numBytes - 1`. -/
def ReverseBytes (heap : Nat → Char) (theValue : List Char) (numBytes : Int) : List Char :=
  let n := numBytes.toNat
  let tempValue := (List.range n).map heap
  let tempValue := (List.range n).foldl (fun t i => t.set i (theValue.getD i '\x00')) tempValue
  (List.range n).foldl (fun v i => v.set i (tempValue.getD (n - i - 1) '\x00')) theValue

/-! ## Reference predicates for `GetYN` -/

/-- The first character of a line is one of `y`, `Y`, `n`, `N`. -/
def ynLine (line : List Char) : Bool :=
  match line with
  | [] => false
  | c :: _ => c == 'y' || c == 'Y' || c == 'n' || c == 'N'

/-- The first character of a line is `y` or `Y`. -/
def yesLine (line : List Char) : Bool :=
  match line with
  | [] => false
  | c :: _ => c == 'y' || c == 'Y'

/-- A line carries a leading `+` for `GetLastSector`: after the leading spaces its first
character is `+`. -/
def plusLine (line : List Char) : Bool :=
  (line.dropWhile (fun c => c == ' ')).head? == some '+'

/-! ## Reference notions for GUID strings -/

/-- A token of exactly `n` hexadecimal digits, of either letter case. -/
def hexToken (n : Nat) (h : List Char) : Bool := h.length == n && h.all isxdigit

/-- Five groups joined by `-`, as in the canonical GUID string. -/
def canonicalStr (h1 h2 h3 h4 h5 : List Char) : List Char :=
  h1 ++ '-' :: (h2 ++ '-' :: (h3 ++ '-' :: (h4 ++ '-' :: h5)))

/-! # Theorems -/

/-! ## Bit masks as division and remainder -/

theorem land_mask (x k w : Nat) :
    x &&& ((2 ^ w - 1) * 2 ^ k) = ((x / 2 ^ k) % 2 ^ w) * 2 ^ k := by
  apply Nat.eq_of_testBit_eq
  intro j
  rw [Nat.testBit_and, Nat.mul_comm (2 ^ w - 1), Nat.mul_comm _ (2 ^ k),
    Nat.testBit_mul_pow_two, Nat.testBit_mul_pow_two, Nat.testBit_two_pow_sub_one,
    Nat.testBit_mod_two_pow, ← Nat.shiftRight_eq_div_pow, Nat.testBit_shiftRight]
  by_cases hj : k ≤ j
  · have : k + (j - k) = j := by omega
    simp [hj, this, Bool.and_comm]
  · simp [hj]

theorem mask_shift (x k w : Nat) :
    (x &&& ((2 ^ w - 1) * 2 ^ k)) >>> k = (x / 2 ^ k) % 2 ^ w := by
  rw [land_mask, Nat.shiftRight_eq_div_pow, Nat.mul_div_cancel _ (Nat.pow_pos (by norm_num))]

/-! ## `%0NllX` writes exactly `N` digits when the value fits -/

theorem hexFixed_length (n v : Nat) : (hexFixed n v).length = n := by
  induction n generalizing v with
  | zero => rfl
  | succ n ih => simp [hexFixed, ih]

theorem hexFixed_zero_cons (k v : Nat) (h : v < 16 ^ k) :
    hexFixed (k + 1) v = '0' :: hexFixed k v := by
  induction k generalizing v with
  | zero =>
    have : v = 0 := by simpa using h
    subst this; rfl
  | succ k ih =>
    have h1 : v / 16 < 16 ^ k := by
      rw [Nat.div_lt_iff_lt_mul (by norm_num)]; rw [pow_succ] at h; exact h
    rw [hexFixed, ih _ h1]
    simp [hexFixed]

theorem hexFixed_pad (k n v : Nat) (h : v < 16 ^ k) (hkn : k ≤ n) :
    List.replicate (n - k) '0' ++ hexFixed k v = hexFixed n v := by
  induction n, hkn using Nat.le_induction with
  | base => simp
  | succ n hkn ih =>
    have h1 : v < 16 ^ n := lt_of_lt_of_le h (Nat.pow_le_pow_right (by norm_num) hkn)
    rw [hexFixed_zero_cons n v h1, ← ih]
    have : n + 1 - k = (n - k) + 1 := by omega
    rw [this, List.replicate_succ]; rfl

theorem hexDigitsAux_eq (fuel : Nat) : ∀ (v w : Nat) (acc : List Char),
    v < 16 ^ w → 1 ≤ w → w ≤ fuel →
    ∃ k, 1 ≤ k ∧ k ≤ w ∧ v < 16 ^ k ∧ hexDigitsAux fuel v acc = hexFixed k v ++ acc := by
  induction fuel with
  | zero => intro v w acc _ h1 h2; omega
  | succ fuel ih =>
    intro v w acc hv h1 h2
    by_cases h0 : v / 16 = 0
    · refine ⟨1, le_refl _, h1, ?_, ?_⟩
      · have := (Nat.div_eq_zero_iff (by norm_num : 0 < 16)).1 h0
        simpa using this
      · simp [hexDigitsAux, h0, hexFixed]
    · have hv16 : 16 ≤ v := by
        by_contra hc
        exact h0 (Nat.div_eq_of_lt (by omega))
      have hw2 : 2 ≤ w := by
        by_contra hc
        have : w = 1 := by omega
        subst this
        simp at hv; omega
      obtain ⟨w', rfl⟩ : ∃ w', w = w' + 1 := ⟨w - 1, by omega⟩
      have hv' : v / 16 < 16 ^ w' := by
        rw [Nat.div_lt_iff_lt_mul (by norm_num)]; rw [pow_succ] at hv; exact hv
      obtain ⟨k, hk1, hk2, hk3, hk4⟩ :=
        ih (v / 16) w' (hexChar (v % 16) :: acc) hv' (by omega) (by omega)
      refine ⟨k + 1, by omega, by omega, ?_, ?_⟩
      · rw [pow_succ]; omega
      · simp [hexDigitsAux, h0, hk4, hexFixed]

theorem fmtX_eq (w v : Nat) (hw1 : 1 ≤ w) (hw : w ≤ 16) (hv : v < 16 ^ w) :
    fmtX w v = hexFixed w v := by
  have hU : v % U64 = v := by
    apply Nat.mod_eq_of_lt
    exact lt_of_lt_of_le hv (by
      have : (16 : Nat) ^ w ≤ 16 ^ 16 := Nat.pow_le_pow_right (by norm_num) hw
      simpa [U64] using this)
  obtain ⟨k, hk1, hk2, hk3, hk4⟩ := hexDigitsAux_eq 16 v w [] hv hw1 hw
  simp only [fmtX, hU, hk4, List.append_nil, hexFixed_length]
  exact hexFixed_pad k w v hk3 hk2

theorem hexChar_eq_spec (d : Nat) (h : d < 16) : hexChar d = specHexDigit d := by
  interval_cases d <;> rfl

theorem hexFixed_eq_hexN (n : Nat) : ∀ v, hexFixed n v = hexN n v := by
  induction n with
  | zero => intro v; rfl
  | succ n ih =>
    intro v
    rw [hexFixed, ih, hexN, hexN, List.range_succ, List.map_append]
    congr 1
    · apply List.map_congr_left
      intro i hi
      have hi' : i < n := List.mem_range.1 hi
      have e : n + 1 - 1 - i = (n - 1 - i) + 1 := by omega
      rw [e, pow_succ, Nat.div_div_eq_div_mul, Nat.mul_comm]
    · simp [hexChar_eq_spec (v % 16) (Nat.mod_lt _ (by norm_num))]

/-- `GUIDToStr` written with fixed-width groups over divisions and remainders. -/
theorem GUIDToStr_fixed (g : GUIDData) :
    GUIDToStr g =
      hexFixed 8 (g.data1 % 2 ^ 32) ++ '-' :: (hexFixed 4 ((g.data1 / 2 ^ 32) % 2 ^ 16) ++
      '-' :: (hexFixed 4 ((g.data1 / 2 ^ 48) % 2 ^ 16) ++
      '-' :: (hexFixed 2 (g.data2 % 2 ^ 8) ++ (hexFixed 2 ((g.data2 / 2 ^ 8) % 2 ^ 8) ++
      '-' :: (hexFixed 2 ((g.data2 / 2 ^ 16) % 2 ^ 8) ++
      (hexFixed 2 ((g.data2 / 2 ^ 24) % 2 ^ 8) ++
      (hexFixed 2 ((g.data2 / 2 ^ 32) % 2 ^ 8) ++
      (hexFixed 2 ((g.data2 / 2 ^ 40) % 2 ^ 8) ++
      (hexFixed 2 ((g.data2 / 2 ^ 48) % 2 ^ 8) ++
      hexFixed 2 ((g.data2 / 2 ^ 56) % 2 ^ 8)))))))))) := by
  have a1 : g.data1 &&& 0x00000000FFFFFFFF = g.data1 % 2 ^ 32 := by
    simpa using mask_shift g.data1 0 32
  have a2 : (g.data1 &&& 0x0000FFFF00000000) >>> 32 = (g.data1 / 2 ^ 32) % 2 ^ 16 := by
    simpa using mask_shift g.data1 32 16
  have a3 : (g.data1 &&& 0xFFFF000000000000) >>> 48 = (g.data1 / 2 ^ 48) % 2 ^ 16 := by
    simpa using mask_shift g.data1 48 16
  have b0 : g.data2 &&& 0x00000000000000FF = g.data2 % 2 ^ 8 := by
    simpa using mask_shift g.data2 0 8
  have b1 : (g.data2 &&& 0x000000000000FF00) >>> 8 = (g.data2 / 2 ^ 8) % 2 ^ 8 := by
    simpa using mask_shift g.data2 8 8
  have b2 : (g.data2 &&& 0x0000000000FF0000) >>> 16 = (g.data2 / 2 ^ 16) % 2 ^ 8 := by
    simpa using mask_shift g.data2 16 8
  have b3 : (g.data2 &&& 0x00000000FF000000) >>> 24 = (g.data2 / 2 ^ 24) % 2 ^ 8 := by
    simpa using mask_shift g.data2 24 8
  have b4 : (g.data2 &&& 0x000000FF00000000) >>> 32 = (g.data2 / 2 ^ 32) % 2 ^ 8 := by
    simpa using mask_shift g.data2 32 8
  have b5 : (g.data2 &&& 0x0000FF0000000000) >>> 40 = (g.data2 / 2 ^ 40) % 2 ^ 8 := by
    simpa using mask_shift g.data2 40 8
  have b6 : (g.data2 &&& 0x00FF000000000000) >>> 48 = (g.data2 / 2 ^ 48) % 2 ^ 8 := by
    simpa using mask_shift g.data2 48 8
  have b7 : (g.data2 &&& 0xFF00000000000000) >>> 56 = (g.data2 / 2 ^ 56) % 2 ^ 8 := by
    simpa using mask_shift g.data2 56 8
  have f8 : ∀ v, fmtX 8 (v % 2 ^ 32) = hexFixed 8 (v % 2 ^ 32) := fun v =>
    fmtX_eq 8 _ (by norm_num) (by norm_num) (Nat.mod_lt _ (by norm_num))
  have f4 : ∀ v, fmtX 4 (v % 2 ^ 16) = hexFixed 4 (v % 2 ^ 16) := fun v =>
    fmtX_eq 4 _ (by norm_num) (by norm_num) (Nat.mod_lt _ (by norm_num))
  have f2 : ∀ v, fmtX 2 (v % 2 ^ 8) = hexFixed 2 (v % 2 ^ 8) := fun v =>
    fmtX_eq 2 _ (by norm_num) (by norm_num) (Nat.mod_lt _ (by norm_num))
  simp only [GUIDToStr, a1, a2, a3, b0, b1, b2, b3, b4, b5, b6, b7, f8, f4, f2,
    List.append_assoc, List.singleton_append, List.cons_append, List.nil_append]

theorem byteOf_eq (B i : Nat) : byteOf B i = (B / 2 ^ (8 * i)) % 2 ^ 8 := by
  unfold byteOf
  rw [Nat.shiftRight_eq_div_pow]
  exact Nat.and_pow_two_sub_one_eq_mod _ 8

theorem hexChar_upper (d : Nat) :
    isUpperHexDigit (hexChar (d % 16)) = true ∧ hexChar (d % 16) ≠ '-' := by
  have h : d % 16 < 16 := Nat.mod_lt _ (by norm_num)
  generalize d % 16 = e at h
  interval_cases e <;> decide

/-! ## C2, C3: what `GUIDToStr` writes -/

/-- C2. For every GUID the string `GUIDToStr` builds is the layout of the
specification: eight digits for bits 0..31 of field A, four for bits 32..47, four for
bits 48..63, then the bytes of field B in ascending byte-index order (bytes 0 and 1,
a hyphen, bytes 2 to 7), each group a zero-padded uppercase hexadecimal rendering. -/
theorem GUIDToStr_layout (g : GUIDData) :
    GUIDToStr g = specGUIDLayout g.data1 g.data2 := by
  rw [GUIDToStr_fixed]
  simp only [specGUIDLayout, byteOf_eq, hexFixed_eq_hexN, List.append_assoc,
    List.singleton_append, List.cons_append, List.nil_append]
  norm_num

/-- C3. For every GUID the string `GUIDToStr` builds has exactly 36 characters, a
hyphen exactly at the indices 8, 13, 18 and 23, an uppercase hexadecimal digit at every
other index, and the all-zero GUID gives `00000000-0000-0000-0000-000000000000`. -/
theorem GUIDToStr_shape (g : GUIDData) :
    (GUIDToStr g).length = 36 ∧
    (∀ i c, (GUIDToStr g)[i]? = some c →
      (c = '-' ↔ (i = 8 ∨ i = 13 ∨ i = 18 ∨ i = 23)) ∧
      (¬ (i = 8 ∨ i = 13 ∨ i = 18 ∨ i = 23) → isUpperHexDigit c = true)) ∧
    GUIDToStr ⟨0, 0⟩ = "00000000-0000-0000-0000-000000000000".toList := by
  refine ⟨?_, ?_, by decide⟩
  · rw [GUIDToStr_fixed]; simp [hexFixed_length]
  · intro i c hc
    have hi : i < 36 := by
      have := (List.getElem?_eq_some_iff.1 hc).1
      rw [GUIDToStr_fixed] at this
      simpa [hexFixed_length] using this
    rw [GUIDToStr_fixed] at hc
    simp only [hexFixed, List.nil_append, List.cons_append, List.singleton_append] at hc
    interval_cases i <;>
      simp only [List.getElem?_cons_succ, List.getElem?_cons_zero, Option.some.injEq] at hc <;>
      subst hc <;> simp [hexChar_upper]

/-! ## Reading back what `GUIDToStr` wrote -/
theorem hexChar_facts (d : Nat) (h : d < 16) :
    isspace (hexChar d) = false ∧ hexChar d ≠ '-' ∧ hexChar d ≠ '+' ∧ hexChar d ≠ 'x' ∧
    hexChar d ≠ 'X' ∧ hexChar d ≠ 'r' ∧ hexChar d ≠ 'R' ∧ hexVal (hexChar d) = some d ∧
    isxdigit (hexChar d) = true := by
  interval_cases d <;> decide

theorem hexFixed_mem (n : Nat) : ∀ v c, c ∈ hexFixed n v → ∃ d, d < 16 ∧ c = hexChar d := by
  induction n with
  | zero => intro v c h; simp [hexFixed] at h
  | succ n ih =>
    intro v c h
    simp only [hexFixed, List.mem_append, List.mem_singleton] at h
    rcases h with h | h
    · exact ih _ _ h
    · exact ⟨v % 16, Nat.mod_lt _ (by norm_num), h⟩

theorem hexValue_snoc (l : List Char) (c : Char) :
    hexValue (l ++ [c]) = 16 * hexValue l + (hexVal c).getD 0 := by
  simp [hexValue, List.foldl_append]

theorem hexValue_hexFixed (n : Nat) : ∀ v, hexValue (hexFixed n v) = v % 16 ^ n := by
  induction n with
  | zero => intro v; simp [hexFixed, hexValue, Nat.mod_one]
  | succ n ih =>
    intro v
    rw [hexFixed, hexValue_snoc, ih,
      (hexChar_facts (v % 16) (Nat.mod_lt _ (by norm_num))).2.2.2.2.2.2.2.1, pow_succ',
      Nat.mod_mul]
    simp only [Option.getD_some]; omega

theorem sscanf_llx_hex (c1 c2 : Char) (r : List Char) (junk : Nat)
    (h1 : ∃ d, d < 16 ∧ c1 = hexChar d) (h2 : ∃ d, d < 16 ∧ c2 = hexChar d)
    (hr : ∀ c ∈ r, ∃ d, d < 16 ∧ c = hexChar d) (hv : hexValue (c1 :: c2 :: r) < U64) :
    sscanf_llx (c1 :: c2 :: r) junk = hexValue (c1 :: c2 :: r) := by
  obtain ⟨d1, hd1, rfl⟩ := h1
  obtain ⟨d2, hd2, rfl⟩ := h2
  have f1 := hexChar_facts d1 hd1
  have f2 := hexChar_facts d2 hd2
  have hall : ∀ c ∈ hexChar d1 :: hexChar d2 :: r, isxdigit c = true := by
    intro c hc
    simp only [List.mem_cons] at hc
    rcases hc with rfl | rfl | hc
    · exact f1.2.2.2.2.2.2.2.2
    · exact f2.2.2.2.2.2.2.2.2
    · obtain ⟨d, hd, rfl⟩ := hr c hc
      exact (hexChar_facts d hd).2.2.2.2.2.2.2.2
  have htw : (hexChar d1 :: hexChar d2 :: r).takeWhile isxdigit = hexChar d1 :: hexChar d2 :: r :=
    List.takeWhile_eq_self_iff.2 hall
  have hdw : (hexChar d1 :: hexChar d2 :: r).dropWhile isspace = hexChar d1 :: hexChar d2 :: r := by
    simp [List.dropWhile, f1.1]
  have hss : scanSign (hexChar d1 :: hexChar d2 :: r) = (false, hexChar d1 :: hexChar d2 :: r) := by
    unfold scanSign
    split
    · rename_i h; simp only [List.cons.injEq] at h; exact absurd h.1 f1.2.1
    · rename_i h; simp only [List.cons.injEq] at h; exact absurd h.1 f1.2.2.1
    · rfl
  have htu : toU64 false (hexValue (hexChar d1 :: hexChar d2 :: r)) = hexValue (hexChar d1 :: hexChar d2 :: r) := by
    unfold toU64; rw [if_neg (by omega)]; simp
  unfold sscanf_llx
  rw [hdw, hss]
  simp only
  split
  · rename_i h; simp only [List.cons.injEq] at h; exact absurd h.2.1 f2.2.2.2.1
  · rename_i h; simp only [List.cons.injEq] at h; exact absurd h.2.1 f2.2.2.2.2.1
  · rw [htw]; exact htu



theorem hexFixed_append (m a : Nat) (n : Nat) : ∀ b, b < 16 ^ n →
    hexFixed m a ++ hexFixed n b = hexFixed (m + n) (a * 16 ^ n + b) := by
  induction n with
  | zero => intro b hb; have : b = 0 := by simpa using hb
            subst this; simp [hexFixed]
  | succ n ih =>
    intro b hb
    have hb' : b / 16 < 16 ^ n := by
      rw [Nat.div_lt_iff_lt_mul (by norm_num)]; rw [pow_succ] at hb; exact hb
    have e0 : a * 16 ^ (n + 1) = 16 * (a * 16 ^ n) := by ring
    have e1 : (a * 16 ^ (n + 1) + b) / 16 = a * 16 ^ n + b / 16 := by
      rw [e0]; omega
    have e2 : (a * 16 ^ (n + 1) + b) % 16 = b % 16 := by
      rw [e0]; omega
    rw [← Nat.add_assoc, hexFixed, hexFixed, e1, e2, ← ih _ hb', List.append_assoc]

theorem sscanf_llx_hexFixed (n v junk : Nat) (h2 : 2 ≤ n) (h16 : n ≤ 16) (hv : v < 16 ^ n) :
    sscanf_llx (hexFixed n v) junk = v := by
  have hlen := hexFixed_length n v
  have hmem := hexFixed_mem n v
  have hval := hexValue_hexFixed n v
  rw [Nat.mod_eq_of_lt hv] at hval
  have hU : v < U64 := lt_of_lt_of_le hv (by
    have : (16 : Nat) ^ n ≤ 16 ^ 16 := Nat.pow_le_pow_right (by norm_num) h16
    simpa [U64] using this)
  generalize hexFixed n v = l at hlen hmem hval
  match l, hlen, hmem, hval with
  | [], hlen, _, _ => simp at hlen; omega
  | [_], hlen, _, _ => simp at hlen; omega
  | c1 :: c2 :: r, _, hmem, hval =>
    rw [sscanf_llx_hex c1 c2 r junk (hmem c1 (by simp)) (hmem c2 (by simp))
      (fun c hc => hmem c (by simp [hc])) (by rw [hval]; exact hU), hval]

theorem packData2_eq (p4 p5 : Nat) :
    packData2 p4 p5 =
      ((p4 / 2 ^ 8) % 2 ^ 8 + (p4 % 2 ^ 8) * 2 ^ 8 +
       ((p5 / 2 ^ 40) % 2 ^ 8) * 2 ^ 16 + ((p5 / 2 ^ 32) % 2 ^ 8) * 2 ^ 24 +
       ((p5 / 2 ^ 24) % 2 ^ 8) * 2 ^ 32 + ((p5 / 2 ^ 16) % 2 ^ 8) * 2 ^ 40 +
       ((p5 / 2 ^ 8) % 2 ^ 8) * 2 ^ 48 + (p5 % 2 ^ 8) * 2 ^ 56) % U64 := by
  have a := mask_shift p4 8 8
  have b := land_mask p4 0 8
  have c := land_mask p5 40 8
  have d := land_mask p5 32 8
  have e := land_mask p5 24 8
  have f := land_mask p5 16 8
  have g := land_mask p5 8 8
  have h := land_mask p5 0 8
  norm_num at a b c d e f g h
  unfold packData2
  rw [a, b, c, d, e, f, g, h]
  clear a b c d e f g h
  simp only [Nat.shiftLeft_eq, Nat.shiftRight_eq_div_pow, U64]
  norm_num
  omega

theorem substr_GUIDToStr (g : GUIDData) :
    (GUIDToStr g ++ ['\n']).length = 37 ∧
    (GUIDToStr g ++ ['\n']).head? ≠ some 'r' ∧ (GUIDToStr g ++ ['\n']).head? ≠ some 'R' ∧
    substr (GUIDToStr g ++ ['\n']) 0 8 = hexFixed 8 (g.data1 % 2 ^ 32) ∧
    substr (GUIDToStr g ++ ['\n']) 9 4 = hexFixed 4 ((g.data1 / 2 ^ 32) % 2 ^ 16) ∧
    substr (GUIDToStr g ++ ['\n']) 14 4 = hexFixed 4 ((g.data1 / 2 ^ 48) % 2 ^ 16) ∧
    substr (GUIDToStr g ++ ['\n']) 19 4 =
      hexFixed 2 (g.data2 % 2 ^ 8) ++ hexFixed 2 ((g.data2 / 2 ^ 8) % 2 ^ 8) ∧
    substr (GUIDToStr g ++ ['\n']) 24 12 =
      hexFixed 2 ((g.data2 / 2 ^ 16) % 2 ^ 8) ++ (hexFixed 2 ((g.data2 / 2 ^ 24) % 2 ^ 8) ++
      (hexFixed 2 ((g.data2 / 2 ^ 32) % 2 ^ 8) ++ (hexFixed 2 ((g.data2 / 2 ^ 40) % 2 ^ 8) ++
      (hexFixed 2 ((g.data2 / 2 ^ 48) % 2 ^ 8) ++ hexFixed 2 ((g.data2 / 2 ^ 56) % 2 ^ 8))))) := by
  rw [GUIDToStr_fixed]
  have r := (hexChar_facts (g.data1 % 2 ^ 32 / 16 / 16 / 16 / 16 / 16 / 16 / 16 % 16)
    (Nat.mod_lt _ (by norm_num)))
  refine ⟨by simp [hexFixed_length], ?_, ?_, ?_, ?_, ?_, ?_, ?_⟩
  · simp only [hexFixed, List.nil_append, List.cons_append, List.head?_cons, ne_eq,
      Option.some.injEq]; exact r.2.2.2.2.2.1
  · simp only [hexFixed, List.nil_append, List.cons_append, List.head?_cons, ne_eq,
      Option.some.injEq]; exact r.2.2.2.2.2.2.1
  all_goals simp [substr, hexFixed]



theorem packData1_split (A : Nat) (hA : A < 2 ^ 64) :
    packData1 (A % 2 ^ 32) ((A / 2 ^ 32) % 2 ^ 16) ((A / 2 ^ 48) % 2 ^ 16) = A := by
  simp only [packData1, Nat.shiftLeft_eq, U64]
  norm_num at hA ⊢
  omega

theorem part4_scan (B junk : Nat) :
    sscanf_llx (hexFixed 2 (B % 2 ^ 8) ++ hexFixed 2 ((B / 2 ^ 8) % 2 ^ 8)) junk =
      (B % 2 ^ 8) * 2 ^ 8 + (B / 2 ^ 8) % 2 ^ 8 := by
  have hb : ∀ x : Nat, x % 2 ^ 8 < 16 ^ 2 := fun x => by norm_num; omega
  rw [hexFixed_append _ _ _ _ (hb _)]
  rw [sscanf_llx_hexFixed _ _ _ (by norm_num) (by norm_num)]
  · norm_num
  · have := hb B; have := hb (B / 2 ^ 8); norm_num at *; omega

theorem part5_scan (B junk : Nat) :
    sscanf_llx (hexFixed 2 ((B / 2 ^ 16) % 2 ^ 8) ++ (hexFixed 2 ((B / 2 ^ 24) % 2 ^ 8) ++
      (hexFixed 2 ((B / 2 ^ 32) % 2 ^ 8) ++ (hexFixed 2 ((B / 2 ^ 40) % 2 ^ 8) ++
      (hexFixed 2 ((B / 2 ^ 48) % 2 ^ 8) ++ hexFixed 2 ((B / 2 ^ 56) % 2 ^ 8)))))) junk =
      ((B / 2 ^ 16) % 2 ^ 8) * 2 ^ 40 + ((B / 2 ^ 24) % 2 ^ 8) * 2 ^ 32 +
      ((B / 2 ^ 32) % 2 ^ 8) * 2 ^ 24 + ((B / 2 ^ 40) % 2 ^ 8) * 2 ^ 16 +
      ((B / 2 ^ 48) % 2 ^ 8) * 2 ^ 8 + (B / 2 ^ 56) % 2 ^ 8 := by
  have hb : ∀ x : Nat, x % 2 ^ 8 < 256 := fun x => Nat.mod_lt _ (by norm_num)
  have h2 := hb (B / 2 ^ 16)
  have h3 := hb (B / 2 ^ 24)
  have h4 := hb (B / 2 ^ 32)
  have h5 := hb (B / 2 ^ 40)
  have h6 := hb (B / 2 ^ 48)
  have h7 := hb (B / 2 ^ 56)
  generalize (B / 2 ^ 16) % 2 ^ 8 = b2 at *
  generalize (B / 2 ^ 24) % 2 ^ 8 = b3 at *
  generalize (B / 2 ^ 32) % 2 ^ 8 = b4 at *
  generalize (B / 2 ^ 40) % 2 ^ 8 = b5 at *
  generalize (B / 2 ^ 48) % 2 ^ 8 = b6 at *
  generalize (B / 2 ^ 56) % 2 ^ 8 = b7 at *
  rw [hexFixed_append 2 b6 2 b7 (by norm_num; omega),
    hexFixed_append 2 b5 4 _ (by norm_num; omega),
    hexFixed_append 2 b4 6 _ (by norm_num; omega),
    hexFixed_append 2 b3 8 _ (by norm_num; omega),
    hexFixed_append 2 b2 10 _ (by norm_num; omega),
    sscanf_llx_hexFixed _ _ _ (by norm_num) (by norm_num) (by norm_num; omega)]
  norm_num
  omega

theorem packData2_bytes (b0 b1 b2 b3 b4 b5 b6 b7 : Nat) (h0 : b0 < 256) (h1 : b1 < 256)
    (h2 : b2 < 256) (h3 : b3 < 256) (h4 : b4 < 256) (h5 : b5 < 256) (h6 : b6 < 256)
    (h7 : b7 < 256) :
    packData2 (b0 * 256 + b1)
      (b2 * 1099511627776 + b3 * 4294967296 + b4 * 16777216 + b5 * 65536 + b6 * 256 + b7) =
      b0 + b1 * 256 + b2 * 65536 + b3 * 16777216 + b4 * 4294967296 + b5 * 1099511627776 +
      b6 * 281474976710656 + b7 * 72057594037927936 := by
  rw [packData2_eq]
  simp only [U64]
  norm_num
  have e0 : (b0 * 256 + b1) / 256 % 256 = b0 := by omega
  have e1 : (b0 * 256 + b1) % 256 = b1 := by omega
  generalize hp : b2 * 1099511627776 + b3 * 4294967296 + b4 * 16777216 + b5 * 65536 + b6 * 256
    + b7 = p5
  have e2 : p5 / 1099511627776 % 256 = b2 := by omega
  have e3 : p5 / 4294967296 % 256 = b3 := by omega
  have e4 : p5 / 16777216 % 256 = b4 := by omega
  have e5 : p5 / 65536 % 256 = b5 := by omega
  have e6 : p5 / 256 % 256 = b6 := by omega
  have e7 : p5 % 256 = b7 := by omega
  rw [e0, e1, e2, e3, e4, e5, e6, e7]
  omega

theorem packData2_split (B : Nat) (hB : B < 2 ^ 64) :
    packData2 ((B % 2 ^ 8) * 2 ^ 8 + (B / 2 ^ 8) % 2 ^ 8)
      (((B / 2 ^ 16) % 2 ^ 8) * 2 ^ 40 + ((B / 2 ^ 24) % 2 ^ 8) * 2 ^ 32 +
      ((B / 2 ^ 32) % 2 ^ 8) * 2 ^ 24 + ((B / 2 ^ 40) % 2 ^ 8) * 2 ^ 16 +
      ((B / 2 ^ 48) % 2 ^ 8) * 2 ^ 8 + (B / 2 ^ 56) % 2 ^ 8) = B := by
  have hb : ∀ x : Nat, x % 256 < 256 := fun x => Nat.mod_lt _ (by norm_num)
  have := packData2_bytes (B % 256) (B / 256 % 256) (B / 65536 % 256) (B / 16777216 % 256)
    (B / 4294967296 % 256) (B / 1099511627776 % 256) (B / 281474976710656 % 256)
    (B / 72057594037927936 % 256) (hb _) (hb _) (hb _) (hb _) (hb _) (hb _) (hb _) (hb _)
  norm_num at hB ⊢
  rw [this]
  omega

/-! ## C1: round trip -/

/-- C1. GUID round trip: for every GUID `g` of two 64-bit words, `GetGUID` reading
the 36 characters of `GUIDToStr g` followed by a newline as its first line (the
37-character full-string mode) returns `g` itself, having consumed that one line. -/
theorem GetGUID_GUIDToStr_roundtrip (g : GUIDData) (h1 : g.data1 < 2 ^ 64)
    (h2 : g.data2 < 2 ^ 64) (rnd : Nat × Nat × Nat × Nat) (junk : Parts)
    (rest out : List (List Char)) :
    GetGUID rnd junk ⟨(GUIDToStr g ++ ['\n']) :: rest, out⟩ =
      some (g, ⟨rest, out ++ guidBanner ++ ["New GUID: ".toList ++ GUIDToStr g ++ ['\n']]⟩) := by
  obtain ⟨hlen, hr, hR, s1, s2, s3, s4, s5⟩ := substr_GUIDToStr g
  have e1 : g = ⟨g.data1, g.data2⟩ := rfl
  simp only [GetGUID, hr, hR, hlen, s1, s2, s3, s4, s5, Bool.or_self, decide_False,
    Bool.false_eq_true, if_false, if_true, part4_scan, part5_scan,
    sscanf_llx_hexFixed 8 _ _ (by norm_num) (by norm_num)
      (show g.data1 % 2 ^ 32 < 16 ^ 8 by norm_num; omega),
    sscanf_llx_hexFixed 4 _ _ (by norm_num) (by norm_num)
      (show (g.data1 / 2 ^ 32) % 2 ^ 16 < 16 ^ 4 by norm_num; omega),
    sscanf_llx_hexFixed 4 _ _ (by norm_num) (by norm_num)
      (show (g.data1 / 2 ^ 48) % 2 ^ 16 < 16 ^ 4 by norm_num; omega),
    packData1_split g.data1 h1, packData2_split g.data2 h2]

/-- C1 at a concrete GUID. -/
theorem GetGUID_GUIDToStr_roundtrip_witness :
    GetGUID (1, 2, 3, 4) ⟨0, 0, 0, 0, 0⟩
      ⟨(GUIDToStr ⟨0x11223344AABBCCDD, 0x0102030405060708⟩ ++ ['\n']) :: [], []⟩ =
      some (⟨0x11223344AABBCCDD, 0x0102030405060708⟩,
        ⟨[], [] ++ guidBanner ++
          ["New GUID: ".toList ++ GUIDToStr ⟨0x11223344AABBCCDD, 0x0102030405060708⟩ ++ ['\n']]⟩) :=
  GetGUID_GUIDToStr_roundtrip ⟨0x11223344AABBCCDD, 0x0102030405060708⟩ (by norm_num)
    (by norm_num) (1, 2, 3, 4) ⟨0, 0, 0, 0, 0⟩ [] []

/-! ## `GetNumber` -/

theorem GetNumberLoop_range (low high dflt : Int) (prompt : List Char) :
    ∀ (stdin : List (List Char)) (response : Int) (out : List (List Char)) (r : Int) (c : Console),
      GetNumberLoop low high dflt prompt response stdin out = some (r, c) →
      low ≤ r ∧ r ≤ high := by
  intro stdin
  induction stdin with
  | nil =>
    intro response out r c h
    simp only [GetNumberLoop] at h
    split at h
    · exact absurd h (by simp)
    · rename_i hg
      simp only [Option.some.injEq, Prod.mk.injEq] at h
      obtain ⟨rfl, -⟩ := h
      simp only [outOfRange, Bool.or_eq_true, decide_eq_true_eq, not_or, not_lt] at hg
      exact ⟨hg.1, by omega⟩
  | cons line rest ih =>
    intro response out r c h
    simp only [GetNumberLoop] at h
    split at h
    · split at h
      · split at h
        · exact ih _ _ _ _ h
        · exact ih _ _ _ _ h
      · exact ih _ _ _ _ h
    · rename_i hg
      simp only [Option.some.injEq, Prod.mk.injEq] at h
      obtain ⟨rfl, -⟩ := h
      simp only [outOfRange, Bool.or_eq_true, decide_eq_true_eq, not_or, not_lt] at hg
      exact ⟨hg.1, by omega⟩



theorem takeWhile_eq_nil_head {p : Char → Bool} (c : Char) (r : List Char) :
    (c :: r).takeWhile p = [] ↔ p c = false := by
  by_cases h : p c <;> simp [List.takeWhile, h]

theorem sscanf_d_num (line : List Char) (r : Int) :
    ((sscanf_d line r).1 = 1 ↔ startsWithInt line = true) ∧
    ((sscanf_d line r).1 ≠ 1 → (sscanf_d line r).2 = r) := by
  unfold sscanf_d startsWithInt
  cases hd : line.dropWhile isspace with
  | nil => simp [scanSign]
  | cons a s =>
    simp only
    cases hs : (scanSign (a :: s)).2 with
    | nil =>
      have : scanSign (a :: s) = ((scanSign (a :: s)).1, []) := by rw [← hs]
      rw [this]; simp
    | cons c t =>
      have : scanSign (a :: s) = ((scanSign (a :: s)).1, c :: t) := by rw [← hs]
      rw [this]
      simp only
      by_cases hc : isdigit c = true
      · simp [List.takeWhile, hc]
      · simp [List.takeWhile, hc]



theorem GetNumberLoop_done (low high dflt : Int) (prompt : List Char) (response : Int)
    (stdin out : List (List Char)) (h : outOfRange low high response = false) :
    GetNumberLoop low high dflt prompt response stdin out = some (response, ⟨stdin, out⟩) := by
  cases stdin <;> simp [GetNumberLoop, h]

theorem outOfRange_false_iff (low high r : Int) :
    outOfRange low high r = false ↔ low ≤ r ∧ r ≤ high := by
  simp [outOfRange]

theorem outOfRange_true_iff (low high r : Int) :
    outOfRange low high r = true ↔ r < low ∨ high < r := by
  simp [outOfRange]

/-- One pass of the loop of `GetNumber` on a line without an integer: the default is
taken as response and the loop goes back to its guard. -/
theorem GetNumberLoop_blank (low high dflt : Int) (prompt line : List Char) (response : Int)
    (rest out : List (List Char)) (hg : outOfRange low high response = true)
    (hl : startsWithInt line = false) :
    GetNumberLoop low high dflt prompt response (line :: rest) out =
      GetNumberLoop low high dflt prompt dflt rest (out ++ [prompt]) := by
  have hn : (sscanf_d line response).1 ≠ 1 := by
    rw [Ne, (sscanf_d_num line response).1, hl]; simp
  rw [GetNumberLoop, if_pos hg]
  cases hs : sscanf_d line response with
  | mk num resp =>
    rw [hs] at hn
    simp only at hn
    simp only [hn, if_false]

/-- A run of the loop that has not returned when its input ends is still at a guard
that holds; more input continues from there. -/
theorem GetNumberLoop_none_split (low high dflt : Int) (prompt : List Char) :
    ∀ (pre : List (List Char)) (response : Int) (out : List (List Char)),
      GetNumberLoop low high dflt prompt response pre out = none →
      ∃ response2 out2, outOfRange low high response2 = true ∧
        ∀ more, GetNumberLoop low high dflt prompt response (pre ++ more) out =
          GetNumberLoop low high dflt prompt response2 more out2 := by
  intro pre
  induction pre with
  | nil =>
    intro response out h
    by_cases hg : outOfRange low high response = true
    · exact ⟨response, out, hg, fun more => rfl⟩
    · simp [GetNumberLoop, hg] at h
  | cons line rest ih =>
    intro response out h
    by_cases hg : outOfRange low high response = true
    · rw [GetNumberLoop, if_pos hg] at h
      by_cases hn : (sscanf_d line response).1 = 1
      · by_cases hg2 : outOfRange low high (sscanf_d line response).2 = true
        · simp only [hn, hg2, if_true] at h
          obtain ⟨r2, o2, h2, hm⟩ := ih _ _ h
          refine ⟨r2, o2, h2, fun more => ?_⟩
          rw [List.cons_append, GetNumberLoop, if_pos hg]
          simp only [hn, hg2, if_true]
          exact hm more
        · simp only [hn, hg2, if_true, if_false] at h
          obtain ⟨r2, o2, h2, hm⟩ := ih _ _ h
          refine ⟨r2, o2, h2, fun more => ?_⟩
          rw [List.cons_append, GetNumberLoop, if_pos hg]
          simp only [hn, hg2, if_true, if_false]
          exact hm more
      · simp only [hn, if_false] at h
        obtain ⟨r2, o2, h2, hm⟩ := ih _ _ h
        refine ⟨r2, o2, h2, fun more => ?_⟩
        rw [List.cons_append, GetNumberLoop, if_pos hg]
        simp only [hn, if_false]
        exact hm more
    · simp [GetNumberLoop, hg] at h

/-- With the default outside the range, a value the loop returns was converted from a
line of the input. -/
theorem GetNumberLoop_explicit (low high dflt : Int) (prompt : List Char)
    (hd : outOfRange low high dflt = true) :
    ∀ (stdin : List (List Char)) (response : Int) (out : List (List Char)) (r : Int)
      (c : Console), outOfRange low high response = true →
      GetNumberLoop low high dflt prompt response stdin out = some (r, c) →
      ∃ line ∈ stdin, startsWithInt line = true ∧ ∃ resp, sscanf_d line resp = (1, r) := by
  intro stdin
  induction stdin with
  | nil => intro response out r c hg h; simp [GetNumberLoop, hg] at h
  | cons line rest ih =>
    intro response out r c hg h
    rw [GetNumberLoop, if_pos hg] at h
    cases hs : sscanf_d line response with
    | mk num resp =>
      rw [hs] at h
      simp only at h
      by_cases hn : num = 1
      · subst hn
        have hsw : startsWithInt line = true := by
          rw [← (sscanf_d_num line response).1, hs]
        simp only [if_true] at h
        by_cases hg2 : outOfRange low high resp = true
        · rw [if_pos hg2] at h
          obtain ⟨l, hl, h1, h2⟩ := ih _ _ _ _ hg2 h
          exact ⟨l, List.mem_cons_of_mem _ hl, h1, h2⟩
        · rw [if_neg hg2, GetNumberLoop_done _ _ _ _ _ _ _ (by simpa using hg2)] at h
          simp only [Option.some.injEq, Prod.mk.injEq] at h
          obtain ⟨rfl, -⟩ := h
          exact ⟨line, List.mem_cons_self _ _, hsw, response, hs⟩
      · simp only [hn, if_false] at h
        obtain ⟨l, hl, h1, h2⟩ := ih _ _ _ _ hd h
        exact ⟨l, List.mem_cons_of_mem _ hl, h1, h2⟩

/-- C8. Whatever `low`, `high`, `def` and the input are, a value `GetNumber` returns
lies in `[low, high]`.  When `def` lies outside the range, a blank or non-numeric line
never ends the loop (a call that had not returned before such a line has not returned
after it), and with `low ≠ high` every value returned was converted from a line of
the input that starts with an integer: an explicit response is required. -/
theorem GetNumber_range (low high dflt : Int) (prompt : List Char) :
    (∀ (c : Console) (r : Int) (c2 : Console),
      GetNumber low high dflt prompt c = some (r, c2) → low ≤ r ∧ r ≤ high) ∧
    ((dflt < low ∨ high < dflt) →
      (∀ (pre : List (List Char)) (line : List Char) (out : List (List Char)),
        startsWithInt line = false →
        GetNumber low high dflt prompt ⟨pre, out⟩ = none →
        GetNumber low high dflt prompt ⟨pre ++ [line], out⟩ = none) ∧
      (∀ (c : Console) (r : Int) (c2 : Console), low ≠ high →
        GetNumber low high dflt prompt c = some (r, c2) →
        ∃ line ∈ c.stdin, startsWithInt line = true ∧ ∃ resp, sscanf_d line resp = (1, r))) := by
  refine ⟨?_, fun hd => ⟨?_, ?_⟩⟩
  · intro c r c2 h
    unfold GetNumber at h
    split at h
    · exact GetNumberLoop_range _ _ _ _ _ _ _ _ _ h
    · rename_i he
      simp only [ne_eq, Decidable.not_not] at he
      simp only [Option.some.injEq, Prod.mk.injEq] at h
      obtain ⟨rfl, -⟩ := h
      exact ⟨le_refl _, by omega⟩
  · intro pre line out hl h
    have hd2 : outOfRange low high dflt = true := (outOfRange_true_iff _ _ _).2 hd
    unfold GetNumber at h ⊢
    split at h
    · rename_i hne
      rw [if_pos hne]
      obtain ⟨r2, o2, hg, hm⟩ := GetNumberLoop_none_split _ _ _ _ _ _ _ h
      simp only at hm ⊢
      rw [hm [line], GetNumberLoop_blank _ _ _ _ _ _ _ _ hg hl]
      simp [GetNumberLoop, hd2]
    · simp at h
  · intro c r c2 hne h
    have hd2 : outOfRange low high dflt = true := (outOfRange_true_iff _ _ _).2 hd
    unfold GetNumber at h
    rw [if_pos hne] at h
    exact GetNumberLoop_explicit _ _ _ _ hd2 _ _ _ _ _
      ((outOfRange_true_iff _ _ _).2 (Or.inl (by omega))) h

/-- C10. Degenerate range: `GetNumber(x, x, def, prompt)` returns `x` for every `x`,
`def` and input, and the input is left as it was (no line is read). -/
theorem GetNumber_degenerate (x dflt : Int) (prompt : List Char) (c : Console) :
    GetNumber x x dflt prompt c =
      some (x, ⟨c.stdin, c.stdout ++ ["Using ".toList ++ (toString x).toList ++ ['\n']]⟩) := by
  simp [GetNumber]

/-- C9, amended. For `low < high` and a first line that is blank or does not start
with a base-10 integer: when `low ≤ def ≤ high`, `GetNumber` returns `def` having read
only that line; when `def` lies outside the range the line is consumed, the loop goes
on with the next line, no value is returned if that was the last line, and `def` is
never returned. -/
theorem GetNumber_default (low high dflt : Int) (prompt line : List Char)
    (rest out : List (List Char)) (hlt : low < high) (hl : startsWithInt line = false) :
    (low ≤ dflt ∧ dflt ≤ high →
      GetNumber low high dflt prompt ⟨line :: rest, out⟩ =
        some (dflt, ⟨rest, out ++ [prompt]⟩)) ∧
    (dflt < low ∨ high < dflt →
      GetNumber low high dflt prompt ⟨line :: rest, out⟩ =
        GetNumberLoop low high dflt prompt dflt rest (out ++ [prompt]) ∧
      outOfRange low high dflt = true ∧
      GetNumber low high dflt prompt ⟨[line], out⟩ = none ∧
      ∀ (r : Int) (c2 : Console),
        GetNumber low high dflt prompt ⟨line :: rest, out⟩ = some (r, c2) → r ≠ dflt) := by
  have hne : low ≠ high := by omega
  have hg : outOfRange low high (low - 1) = true :=
    (outOfRange_true_iff _ _ _).2 (Or.inl (by omega))
  have hstep : ∀ rest2, GetNumber low high dflt prompt ⟨line :: rest2, out⟩ =
      GetNumberLoop low high dflt prompt dflt rest2 (out ++ [prompt]) := by
    intro rest2
    unfold GetNumber
    rw [if_pos hne]
    exact GetNumberLoop_blank _ _ _ _ _ _ _ _ hg hl
  refine ⟨fun hin => ?_, fun hout => ⟨hstep rest, ?_, ?_, ?_⟩⟩
  · rw [hstep, GetNumberLoop_done _ _ _ _ _ _ _ ((outOfRange_false_iff _ _ _).2 hin)]
  · exact (outOfRange_true_iff _ _ _).2 hout
  · rw [hstep]
    simp [GetNumberLoop, (outOfRange_true_iff _ _ _).2 hout]
  · intro r c2 h
    rw [hstep] at h
    have := GetNumberLoop_range _ _ _ _ _ _ _ _ _ h
    intro he; subst he; omega

/-- C8 on a concrete run: default outside the range, a blank line, a word, a value out
of range, then 7. -/
theorem GetNumber_range_witness :
    GetNumber 1 10 0 "> ".toList
        ⟨["\n".toList, "abc\n".toList, "50\n".toList, "7\n".toList], []⟩ =
      some (7, ⟨[], ["> ".toList, "> ".toList, "> ".toList, "Value out of range\n".toList,
        "> ".toList]⟩) ∧
    ((1 : Int) ≤ 7 ∧ (7 : Int) ≤ 10) :=
  ⟨by decide, (GetNumber_range 1 10 0 "> ".toList).1
    ⟨["\n".toList, "abc\n".toList, "50\n".toList, "7\n".toList], []⟩ 7
    ⟨[], ["> ".toList, "> ".toList, "> ".toList, "Value out of range\n".toList, "> ".toList]⟩
    (by decide)⟩

/-- C9 as stated fails: with `low = 1`, `high = 10`, `def = 0` and a blank first line
`GetNumber` does not return `0` after that line; it reads the second line and
returns `5`. -/
theorem GetNumber_default_counterexample :
    startsWithInt "\n".toList = false ∧
    GetNumber 1 10 0 "> ".toList ⟨["\n".toList, "5\n".toList], []⟩ =
      some (5, ⟨[], ["> ".toList, "> ".toList]⟩) ∧
    GetNumber 1 10 0 "> ".toList ⟨["\n".toList, "5\n".toList], []⟩ ≠
      some (0, ⟨["5\n".toList], ["> ".toList]⟩) := by
  decide

/-- C9 amended, on a concrete run with the default inside the range. -/
theorem GetNumber_default_witness :
    GetNumber 1 10 3 "> ".toList ⟨["\n".toList, "5\n".toList], []⟩ =
      some (3, ⟨["5\n".toList], [] ++ ["> ".toList]⟩) :=
  (GetNumber_default 1 10 3 "> ".toList "\n".toList ["5\n".toList] [] (by decide)
    (by decide)).1 ⟨by decide, by decide⟩

/-! ## `GetLastSector` -/

theorem multOf_eq_spec (c : Char) : multOf c = specMult c := by
  by_cases h1 : c = 'K'
  · subst h1; decide
  by_cases h2 : c = 'k'
  · subst h2; decide
  by_cases h3 : c = 'M'
  · subst h3; decide
  by_cases h4 : c = 'm'
  · subst h4; decide
  by_cases h5 : c = 'G'
  · subst h5; decide
  by_cases h6 : c = 'g'
  · subst h6; decide
  by_cases h7 : c = 'T'
  · subst h7; decide
  by_cases h8 : c = 't'
  · subst h8; decide
  unfold multOf specMult
  simp only [h1, h2, h3, h4, h5, h6, h7, h8, or_self, if_false]

theorem sscanf_llu_c_none (l : List Char) (r : Nat) (s : Char)
    (h : startsWithInt l = false) : (sscanf_llu_c l r s).1 ≤ 0 := by
  unfold startsWithInt at h
  unfold sscanf_llu_c
  cases hd : l.dropWhile isspace with
  | nil => simp
  | cons a t =>
    rw [hd] at h
    simp only
    cases hs : (scanSign (a :: t)).2 with
    | nil =>
      have : scanSign (a :: t) = ((scanSign (a :: t)).1, []) := by rw [← hs]
      rw [this]; simp
    | cons c u =>
      rw [hs] at h
      simp only at h
      have : scanSign (a :: t) = ((scanSign (a :: t)).1, c :: u) := by rw [← hs]
      rw [this]
      simp [List.takeWhile, h]

theorem isdigit_facts (c : Char) (h : isdigit c = true) :
    isspace c = false ∧ c ≠ '-' ∧ c ≠ '+' ∧ c ≠ ' ' := by
  refine ⟨?_, ?_, ?_, ?_⟩
  · cases hs : isspace c with
    | false => rfl
    | true =>
      simp only [isspace, Bool.or_eq_true, beq_iff_eq] at hs
      rcases hs with ((((rfl | rfl) | rfl) | rfl) | rfl) | rfl <;> revert h <;> decide
  · rintro rfl; revert h; decide
  · rintro rfl; revert h; decide
  · rintro rfl; revert h; decide

theorem sscanf_llu_c_digits (c0 : Char) (ds : List Char) (c : Char) (tail : List Char)
    (r : Nat) (s : Char) (h0 : isdigit c0 = true) (hds : ∀ d ∈ ds, isdigit d = true)
    (hc : isdigit c = false) :
    sscanf_llu_c (c0 :: ds ++ c :: tail) r s = (2, toU64 false (decValue (c0 :: ds)), c) := by
  have f := isdigit_facts c0 h0
  have hall : ∀ d ∈ c0 :: ds, isdigit d = true := by
    intro d hd
    simp only [List.mem_cons] at hd
    rcases hd with rfl | hd
    · exact h0
    · exact hds d hd
  have hss : scanSign (c0 :: (ds ++ c :: tail)) = (false, c0 :: (ds ++ c :: tail)) := by
    unfold scanSign
    split
    · rename_i h; simp only [List.cons.injEq] at h; exact absurd h.1 f.2.1
    · rename_i h; simp only [List.cons.injEq] at h; exact absurd h.1 f.2.2.1
    · rfl
  have htw : (c0 :: ds ++ c :: tail).takeWhile isdigit = c0 :: ds := by
    rw [List.takeWhile_append_of_pos hall]
    simp [List.takeWhile, hc]
  have hdw : (c0 :: ds ++ c :: tail).dropWhile isdigit = c :: tail := by
    rw [List.dropWhile_append_of_pos hall]
    simp [List.dropWhile, hc]
  have hsp : (c0 :: ds ++ c :: tail).dropWhile isspace = c0 :: ds ++ c :: tail := by
    simp [List.dropWhile, f.1]
  unfold sscanf_llu_c
  rw [hsp]
  simp only [List.cons_append] at hss htw hdw ⊢
  rw [hss]
  simp only
  rw [htw, hdw]



theorem lastSectorBody_blank (low high : Nat) (st : LSState) (line : List Char)
    (hh : high < 2 ^ 64) (hl : startsNumber line = false) :
    lastSectorBody low high st line = ⟨high, 0, ' '⟩ := by
  unfold startsNumber at hl
  simp only at hl
  have hn := sscanf_llu_c_none _ st.response st.suffix hl
  unfold lastSectorBody
  simp only
  rcases hs : sscanf_llu_c _ st.response st.suffix with ⟨num, resp, suf⟩
  rw [hs] at hn
  simp only at hn
  have hm : multOf ' ' = 1 := by decide
  have hU : high % U64 = high := Nat.mod_eq_of_lt (by simpa [U64] using hh)
  simp [hn, hm, hU]

theorem lastSectorBody_abs (low high : Nat) (st : LSState) (c0 : Char) (ds : List Char)
    (c : Char) (tail : List Char) (h0 : isdigit c0 = true) (hds : ∀ d ∈ ds, isdigit d = true)
    (hc : isdigit c = false) :
    lastSectorBody low high st (c0 :: ds ++ c :: tail) =
      ⟨if st.plusFlag = 1 then
          ((toU64 false (decValue (c0 :: ds)) * multOf c) % U64 + low + (U64 - 1)) % U64
        else (toU64 false (decValue (c0 :: ds)) * multOf c) % U64,
       st.plusFlag, c⟩ := by
  have f := isdigit_facts c0 h0
  have hsp : (c0 :: ds ++ c :: tail).dropWhile (fun c => c == ' ') = c0 :: ds ++ c :: tail := by
    have : (c0 == ' ') = false := by simpa using f.2.2.2
    simp [List.dropWhile, this]
  have hhd : (c0 :: ds ++ c :: tail).head? ≠ some '+' := by
    simp [f.2.2.1]
  unfold lastSectorBody
  simp only [hsp, hhd, if_false, sscanf_llu_c_digits c0 ds c tail _ _ h0 hds hc]
  simp

theorem lastSectorBody_rel (low high : Nat) (st : LSState) (c0 : Char) (ds : List Char)
    (c : Char) (tail : List Char) (h0 : isdigit c0 = true) (hds : ∀ d ∈ ds, isdigit d = true)
    (hc : isdigit c = false) :
    lastSectorBody low high st ('+' :: (c0 :: ds ++ c :: tail)) =
      ⟨((toU64 false (decValue (c0 :: ds)) * multOf c) % U64 + low + (U64 - 1)) % U64, 1, c⟩ := by
  have hsp : ('+' :: (c0 :: ds ++ c :: tail)).dropWhile (fun c => c == ' ') =
      '+' :: (c0 :: ds ++ c :: tail) := by
    simp [List.dropWhile]
  unfold lastSectorBody
  simp only [hsp, List.head?_cons, if_true, List.drop_succ_cons, List.drop_zero,
    sscanf_llu_c_digits c0 ds c tail _ _ h0 hds hc]
  simp



theorem GetLastSectorLoop_done (low high : Nat) (prompt : List Char) (st : LSState)
    (stdin out : List (List Char)) (h : lsGuard low high st = false) :
    GetLastSectorLoop low high prompt st stdin out = some (st.response, ⟨stdin, out⟩) := by
  cases stdin <;> simp [GetLastSectorLoop, h]

theorem GetLastSectorLoop_step (low high : Nat) (prompt : List Char) (st : LSState)
    (line : List Char) (rest out : List (List Char)) (h : lsGuard low high st = true) :
    GetLastSectorLoop low high prompt st (line :: rest) out =
      GetLastSectorLoop low high prompt (lastSectorBody low high st line) rest
        (out ++ [prompt]) := by
  rw [GetLastSectorLoop, if_pos h]

theorem lsGuard_false_iff (low high : Nat) (st : LSState) :
    lsGuard low high st = false ↔ low ≤ st.response ∧ st.response ≤ high := by
  simp [lsGuard]

theorem GetLastSectorLoop_range (low high : Nat) (prompt : List Char) :
    ∀ (stdin : List (List Char)) (st : LSState) (out : List (List Char)) (v : Nat)
      (c : Console), GetLastSectorLoop low high prompt st stdin out = some (v, c) →
      low ≤ v ∧ v ≤ high := by
  intro stdin
  induction stdin with
  | nil =>
    intro st out v c h
    by_cases hg : lsGuard low high st = true
    · simp [GetLastSectorLoop, hg] at h
    · have hg2 : lsGuard low high st = false := by simpa using hg
      rw [GetLastSectorLoop_done _ _ _ _ _ _ hg2] at h
      simp only [Option.some.injEq, Prod.mk.injEq] at h
      obtain ⟨rfl, -⟩ := h
      exact (lsGuard_false_iff _ _ _).1 hg2
  | cons line rest ih =>
    intro st out v c h
    by_cases hg : lsGuard low high st = true
    · rw [GetLastSectorLoop_step _ _ _ _ _ _ _ hg] at h
      exact ih _ _ _ _ h
    · have hg2 : lsGuard low high st = false := by simpa using hg
      rw [GetLastSectorLoop_done _ _ _ _ _ _ hg2] at h
      simp only [Option.some.injEq, Prod.mk.injEq] at h
      obtain ⟨rfl, -⟩ := h
      exact (lsGuard_false_iff _ _ _).1 hg2

/-- A run of the loop of `GetLastSector` that has not returned when its input ends is
at a guard that holds, after one prompt a line; more input continues from there. -/
theorem GetLastSectorLoop_none_split (low high : Nat) (prompt : List Char) :
    ∀ (pre : List (List Char)) (st : LSState) (out : List (List Char)),
      GetLastSectorLoop low high prompt st pre out = none →
      ∃ st2, lsGuard low high st2 = true ∧
        ∀ more, GetLastSectorLoop low high prompt st (pre ++ more) out =
          GetLastSectorLoop low high prompt st2 more
            (out ++ List.replicate pre.length prompt) := by
  intro pre
  induction pre with
  | nil =>
    intro st out h
    by_cases hg : lsGuard low high st = true
    · exact ⟨st, hg, fun more => by simp⟩
    · simp [GetLastSectorLoop, hg] at h
  | cons line rest ih =>
    intro st out h
    by_cases hg : lsGuard low high st = true
    · rw [GetLastSectorLoop_step _ _ _ _ _ _ _ hg] at h
      obtain ⟨st2, h2, hm⟩ := ih _ _ h
      refine ⟨st2, h2, fun more => ?_⟩
      rw [List.cons_append, GetLastSectorLoop_step _ _ _ _ _ _ _ hg, hm more]
      simp [List.replicate_succ]
    · have hg2 : lsGuard low high st = false := by simpa using hg
      rw [GetLastSectorLoop_done _ _ _ _ _ _ hg2] at h
      simp at h

/-- C4. Range postcondition of the offset reader: for all 64-bit `low`, `high` and
every input, a value `v` that `GetLastSector` returns satisfies `low ≤ v ≤ high`. -/
theorem GetLastSector_range (low high : Nat) (prompt : List Char) (suffix0 : Char)
    (c : Console) (v : Nat) (c2 : Console)
    (h : GetLastSector low high prompt suffix0 c = some (v, c2)) : low ≤ v ∧ v ≤ high :=
  GetLastSectorLoop_range low high prompt _ _ _ _ _ h

/-- C7. Blank-input fallback: for `low ≤ high`, whenever `GetLastSector` has not
returned on the lines `pre` and then processes a line from which no number can be
parsed (blank, or not starting a number once the leading spaces and one `+` are
stripped), it returns `high` at that line: no multiplier and no relative adjustment
are applied, whatever `+` or suffix that line or the earlier lines carried. -/
theorem GetLastSector_blank (low high : Nat) (prompt : List Char) (suffix0 : Char)
    (pre : List (List Char)) (line : List Char) (rest out : List (List Char))
    (hh : high < 2 ^ 64) (hle : low ≤ high) (hl : startsNumber line = false)
    (hpre : GetLastSector low high prompt suffix0 ⟨pre, out⟩ = none) :
    GetLastSector low high prompt suffix0 ⟨pre ++ line :: rest, out⟩ =
      some (high, ⟨rest, out ++ List.replicate (pre.length + 1) prompt⟩) := by
  unfold GetLastSector at hpre ⊢
  obtain ⟨st2, hg, hm⟩ := GetLastSectorLoop_none_split _ _ _ _ _ _ hpre
  simp only at hm ⊢
  have hdone : lsGuard low high ⟨high, 0, ' '⟩ = false :=
    (lsGuard_false_iff _ _ _).2 ⟨hle, le_refl _⟩
  rw [hm, GetLastSectorLoop_step _ _ _ _ _ _ _ hg, lastSectorBody_blank _ _ _ _ hh hl,
    GetLastSectorLoop_done _ _ _ _ _ _ hdone]
  simp [List.replicate_succ']



theorem specMult_pos (c : Char) : 1 ≤ specMult c := by
  unfold specMult
  split <;> norm_num

theorem lsInit_guard (low high : Nat) (suffix0 : Char) (hlow : low < 2 ^ 64)
    (hhigh : high < 2 ^ 64) (hfirst : ¬ (low = 0 ∧ high = 2 ^ 64 - 1)) :
    lsGuard low high (lsInit low suffix0) = true := by
  simp only [lsGuard, lsInit, U64, Bool.or_eq_true, decide_eq_true_eq]
  norm_num at hlow hhigh hfirst ⊢
  omega

/-- C6. Suffix scaling and relative offset with `SECTOR_SIZE = 512`.  The first
line holds a number `N` (digits `c0 :: ds`) followed by a character `c` that is no
digit.  The multiplier of the code is the listed one (2 for K, 2048 for M, 2097152 for
G, 2147483648 for T, either case, 1 otherwise).  With a leading `+`, when
`low ≤ low - 1 + N*m ≤ high`, `GetLastSector` returns `low - 1 + N*m`; without it, when
`low ≤ N*m ≤ high`, it returns `N*m`.  The line is read only if the loop is entered,
which `hfirst` says: the start value `low - 1` of `response` is in range only for
`low = 0`, `high = 2^64 - 1`. -/
theorem GetLastSector_suffix (low high : Nat) (prompt : List Char) (suffix0 : Char)
    (c0 : Char) (ds : List Char) (c : Char) (tail : List Char) (rest out : List (List Char))
    (hlow : low < 2 ^ 64) (hhigh : high < 2 ^ 64)
    (hfirst : ¬ (low = 0 ∧ high = 2 ^ 64 - 1))
    (h0 : isdigit c0 = true) (hds : ∀ d ∈ ds, isdigit d = true) (hc : isdigit c = false) :
    multOf c = specMult c ∧
    ((low : Int) ≤ (low : Int) - 1 + ((decValue (c0 :: ds) * specMult c : Nat) : Int) ∧
      (low : Int) - 1 + ((decValue (c0 :: ds) * specMult c : Nat) : Int) ≤ high →
      GetLastSector low high prompt suffix0 ⟨('+' :: (c0 :: ds ++ c :: tail)) :: rest, out⟩ =
        some (((low : Int) - 1 + ((decValue (c0 :: ds) * specMult c : Nat) : Int)).toNat,
          ⟨rest, out ++ [prompt]⟩)) ∧
    (low ≤ decValue (c0 :: ds) * specMult c ∧ decValue (c0 :: ds) * specMult c ≤ high →
      GetLastSector low high prompt suffix0 ⟨(c0 :: ds ++ c :: tail) :: rest, out⟩ =
        some (decValue (c0 :: ds) * specMult c, ⟨rest, out ++ [prompt]⟩)) := by
  have hg := lsInit_guard low high suffix0 hlow hhigh hfirst
  have hm := multOf_eq_spec c
  have hpos := specMult_pos c
  have hNP : decValue (c0 :: ds) ≤ decValue (c0 :: ds) * specMult c :=
    Nat.le_mul_of_pos_right _ hpos
  refine ⟨hm, fun hr => ?_, fun hr => ?_⟩
  · unfold GetLastSector
    simp only
    rw [GetLastSectorLoop_step _ _ _ _ _ _ _ hg, lastSectorBody_rel _ _ _ _ _ _ _ h0 hds hc, hm]
    have hP : decValue (c0 :: ds) * specMult c < 2 ^ 64 := by
      norm_num at hlow hhigh hfirst ⊢; omega
    have hN : toU64 false (decValue (c0 :: ds)) = decValue (c0 :: ds) := by
      unfold toU64; simp only [U64]; rw [if_neg (by omega)]; simp
    rw [hN]
    generalize decValue (c0 :: ds) * specMult c = P at hr hP
    have hv : (P % U64 + low + (U64 - 1)) % U64 = ((low : Int) - 1 + (P : Int)).toNat := by
      simp only [U64]
      norm_num at hlow hhigh hP ⊢
      omega
    rw [hv]
    have hdone : lsGuard low high ⟨((low : Int) - 1 + (P : Int)).toNat, 1, c⟩ = false := by
      rw [lsGuard_false_iff]; simp only; omega
    rw [GetLastSectorLoop_done _ _ _ _ _ _ hdone]
  · unfold GetLastSector
    simp only
    rw [GetLastSectorLoop_step _ _ _ _ _ _ _ hg, lastSectorBody_abs _ _ _ _ _ _ _ h0 hds hc, hm]
    have hP : decValue (c0 :: ds) * specMult c < 2 ^ 64 := by omega
    have hN : toU64 false (decValue (c0 :: ds)) = decValue (c0 :: ds) := by
      unfold toU64; simp only [U64]; rw [if_neg (by omega)]; simp
    rw [hN]
    have hpf : (lsInit low suffix0).plusFlag = 0 := rfl
    simp only [hpf, zero_ne_one, if_false]
    have hv : (decValue (c0 :: ds) * specMult c) % U64 = decValue (c0 :: ds) * specMult c :=
      Nat.mod_eq_of_lt (by simpa [U64] using hP)
    rw [hv]
    have hdone : lsGuard low high ⟨decValue (c0 :: ds) * specMult c, 0, c⟩ = false := by
      rw [lsGuard_false_iff]; exact hr
    rw [GetLastSectorLoop_done _ _ _ _ _ _ hdone]



/-- C4 on a concrete run: a value out of range, then 500. -/
theorem GetLastSector_range_witness :
    GetLastSector 100 1000 "> ".toList ' ' ⟨["5000\n".toList, "500\n".toList], []⟩ =
      some (500, ⟨[], ["> ".toList, "> ".toList]⟩) ∧ (100 ≤ 500 ∧ 500 ≤ 1000) :=
  ⟨by decide, GetLastSector_range 100 1000 "> ".toList ' '
    ⟨["5000\n".toList, "500\n".toList], []⟩ 500 ⟨[], ["> ".toList, "> ".toList]⟩ (by decide)⟩

/-- C6 at the line `+2K` with `low = 100`: the result is 103. -/
theorem GetLastSector_suffix_witness :
    GetLastSector 100 1000 "> ".toList 'x' ⟨["+2K\n".toList], []⟩ =
      some (103, ⟨[], ["> ".toList]⟩) :=
  ((GetLastSector_suffix 100 1000 "> ".toList 'x' '2' [] 'K' ['\n'] [] []
    (by norm_num) (by norm_num) (by norm_num) (by decide) (by simp) (by decide)).2.1
    ⟨by decide, by decide⟩)

/-- C7 on a concrete run: a rejected relative line with suffix, then a lone `+`. -/
theorem GetLastSector_blank_witness :
    GetLastSector 100 1000 "> ".toList 'x' ⟨["+5000K\n".toList] ++ "+\n".toList :: [], []⟩ =
      some (1000, ⟨[], [] ++ List.replicate (["+5000K\n".toList].length + 1) "> ".toList⟩) :=
  GetLastSector_blank 100 1000 "> ".toList 'x' ["+5000K\n".toList] "+\n".toList [] []
    (by norm_num) (by norm_num) (by decide) (by decide)

/-- C5. The code at the failing input: range `[100, 1000]`, the line `+5000`
(rejected: 5099 is out of range), then the line `500`.  `plusFlag` is still 1 from the
first line, so the absolute line is taken as relative and 599 is returned, not 500. -/
theorem GetLastSector_absolute_after_plus :
    GetLastSector 100 1000 "> ".toList ' ' ⟨["+5000\n".toList, "500\n".toList], []⟩ =
      some (599, ⟨[], ["> ".toList, "> ".toList]⟩) := by
  decide

/-! ## `GetYN` -/

theorem ynGuard_false_iff (r : Char) : ynGuard r = false ↔ r = 'Y' ∨ r = 'N' := by
  unfold ynGuard
  by_cases h1 : r = 'Y' <;> by_cases h2 : r = 'N' <;> simp [h1, h2]

theorem GetYNLoop_done (r : Char) (stdin out : List (List Char)) (h : ynGuard r = false) :
    GetYNLoop r stdin out = some (r, ⟨stdin, out⟩) := by
  cases stdin <;> simp [GetYNLoop, h]

theorem GetYNLoop_range : ∀ (stdin : List (List Char)) (r : Char) (out : List (List Char))
    (v : Char) (c : Console), GetYNLoop r stdin out = some (v, c) → v = 'Y' ∨ v = 'N' := by
  intro stdin
  induction stdin with
  | nil =>
    intro r out v c h
    by_cases hg : ynGuard r = true
    · simp [GetYNLoop, hg] at h
    · have hg2 : ynGuard r = false := by simpa using hg
      rw [GetYNLoop_done _ _ _ hg2] at h
      simp only [Option.some.injEq, Prod.mk.injEq] at h
      obtain ⟨rfl, -⟩ := h
      exact (ynGuard_false_iff _).1 hg2
  | cons line rest ih =>
    intro r out v c h
    by_cases hg : ynGuard r = true
    · rw [GetYNLoop, if_pos hg] at h
      exact ih _ _ _ _ h
    · have hg2 : ynGuard r = false := by simpa using hg
      rw [GetYNLoop_done _ _ _ hg2] at h
      simp only [Option.some.injEq, Prod.mk.injEq] at h
      obtain ⟨rfl, -⟩ := h
      exact (ynGuard_false_iff _).1 hg2

/-- The value of `response` while `GetYN` is still asking: none of the four letters. -/
theorem ynWaiting_guard (r : Char) (h : r ≠ 'Y' ∧ r ≠ 'N' ∧ r ≠ 'y' ∧ r ≠ 'n') :
    ynGuard r = true := by
  simp [ynGuard, h.1, h.2.1]

theorem ynWaiting_next (r : Char) (line : List Char)
    (hw : r ≠ 'Y' ∧ r ≠ 'N' ∧ r ≠ 'y' ∧ r ≠ 'n') (hl : ynLine line = false) :
    sscanf_c line r ≠ 'Y' ∧ sscanf_c line r ≠ 'N' ∧ sscanf_c line r ≠ 'y' ∧
      sscanf_c line r ≠ 'n' := by
  cases line with
  | nil => exact hw
  | cons c t =>
    simp only [ynLine, Bool.or_eq_false_iff, beq_eq_false_iff_ne, ne_eq] at hl
    exact ⟨hl.1.1.2, hl.2, hl.1.1.1, hl.1.2⟩

/-- One pass of the loop of `GetYN` on a line that does not start with a letter of the
answer: the loop is back at its guard with the first character as response. -/
theorem GetYNLoop_skip (r : Char) (line : List Char) (rest out : List (List Char))
    (hw : r ≠ 'Y' ∧ r ≠ 'N' ∧ r ≠ 'y' ∧ r ≠ 'n') (hl : ynLine line = false) :
    GetYNLoop r (line :: rest) out =
      GetYNLoop (sscanf_c line r) rest (out ++ ["(Y/N): ".toList]) := by
  have hw2 := ynWaiting_next r line hw hl
  rw [GetYNLoop, if_pos (ynWaiting_guard r hw)]
  simp only [hw2.2.2.1, hw2.2.2.2, if_false]

theorem GetYNLoop_skips : ∀ (pre : List (List Char)) (r : Char) (out : List (List Char)),
    (r ≠ 'Y' ∧ r ≠ 'N' ∧ r ≠ 'y' ∧ r ≠ 'n') → (∀ l ∈ pre, ynLine l = false) →
    ∃ r2, (r2 ≠ 'Y' ∧ r2 ≠ 'N' ∧ r2 ≠ 'y' ∧ r2 ≠ 'n') ∧
      ∀ more, GetYNLoop r (pre ++ more) out =
        GetYNLoop r2 more (out ++ List.replicate pre.length "(Y/N): ".toList) := by
  intro pre
  induction pre with
  | nil => intro r out hw _; exact ⟨r, hw, fun more => by simp⟩
  | cons line rest ih =>
    intro r out hw hl
    have hl1 := hl line (List.mem_cons_self _ _)
    obtain ⟨r2, hw2, h2⟩ := ih (sscanf_c line r) (out ++ ["(Y/N): ".toList])
      (ynWaiting_next r line hw hl1) (fun l hm => hl l (List.mem_cons_of_mem _ hm))
    refine ⟨r2, hw2, fun more => ?_⟩
    rw [List.cons_append, GetYNLoop_skip r line _ out hw hl1, h2 more]
    simp [List.replicate_succ]

/-- One pass of the loop of `GetYN` on a line that starts with a letter of the answer. -/
theorem GetYNLoop_answer (r : Char) (line : List Char) (rest out : List (List Char))
    (hw : r ≠ 'Y' ∧ r ≠ 'N' ∧ r ≠ 'y' ∧ r ≠ 'n') (hl : ynLine line = true) :
    GetYNLoop r (line :: rest) out =
      some (if yesLine line then 'Y' else 'N', ⟨rest, out ++ ["(Y/N): ".toList]⟩) := by
  rw [GetYNLoop, if_pos (ynWaiting_guard r hw)]
  cases line with
  | nil => simp [ynLine] at hl
  | cons c t =>
    simp only [ynLine, Bool.or_eq_true, beq_iff_eq] at hl
    rcases hl with ((rfl | rfl) | rfl) | rfl <;>
      simp [sscanf_c, yesLine, GetYNLoop_done, ynGuard]

/-- C11. A value `GetYN` returns is `'Y'` or `'N'`.  When the lines `pre` all start
with a character other than `y`, `Y`, `n`, `N` (a blank line included) and `line` starts
with one of the four, `GetYN` skips `pre`, prompting once a line, and returns at `line`:
`'Y'` exactly when `line` starts with `y` or `Y`, else `'N'`.  With no such line in the
input it does not return.  The lines `y` and `Y` both give `'Y'`. -/
theorem GetYN_answer :
    (∀ (c : Console) (r : Char) (c2 : Console), GetYN c = some (r, c2) → r = 'Y' ∨ r = 'N') ∧
    (∀ (pre : List (List Char)) (line : List Char) (rest out : List (List Char)),
      (∀ l ∈ pre, ynLine l = false) → ynLine line = true →
      GetYN ⟨pre ++ line :: rest, out⟩ =
        some (if yesLine line then 'Y' else 'N',
          ⟨rest, out ++ List.replicate (pre.length + 1) "(Y/N): ".toList⟩)) ∧
    (∀ (stdin out : List (List Char)), (∀ l ∈ stdin, ynLine l = false) →
      GetYN ⟨stdin, out⟩ = none) ∧
    GetYN ⟨["y\n".toList], []⟩ = some ('Y', ⟨[], ["(Y/N): ".toList]⟩) ∧
    GetYN ⟨["Y\n".toList], []⟩ = some ('Y', ⟨[], ["(Y/N): ".toList]⟩) := by
  have h0 : ('\x00' : Char) ≠ 'Y' ∧ ('\x00' : Char) ≠ 'N' ∧ ('\x00' : Char) ≠ 'y' ∧
      ('\x00' : Char) ≠ 'n' := by decide
  refine ⟨fun c r c2 h => GetYNLoop_range _ _ _ _ _ h, ?_, ?_, by decide, by decide⟩
  · intro pre line rest out hpre hline
    obtain ⟨r2, hw2, h2⟩ := GetYNLoop_skips pre '\x00' out h0 hpre
    unfold GetYN
    simp only
    rw [h2, GetYNLoop_answer r2 line rest _ hw2 hline]
    simp [List.replicate_succ']
  · intro stdin out hall
    obtain ⟨r2, hw2, h2⟩ := GetYNLoop_skips stdin '\x00' out h0 hall
    unfold GetYN
    simp only
    have := h2 []
    rw [List.append_nil] at this
    rw [this]
    simp [GetYNLoop, ynWaiting_guard r2 hw2]

/-! ## `PowerOf2` -/

theorem PowerOf2Loop_eq : ∀ (n r : Nat), r < U64 → PowerOf2Loop n r = (r * 2 ^ n) % U64 := by
  intro n
  induction n with
  | zero => intro r hr; simp [PowerOf2Loop, Nat.mod_eq_of_lt hr]
  | succ n ih =>
    intro r hr
    rw [PowerOf2Loop, ih _ (Nat.mod_lt _ (by simp [U64])), Nat.mod_mul_mod, pow_succ]
    congr 1; ring

/-- C12. For `0 ≤ value ≤ 63`, `PowerOf2(value)` is exactly `2 ^ value`: the 64-bit
product never wraps.  For `value < 0` or `value ≥ 64` it is 0. -/
theorem PowerOf2_eq (value : Int) :
    (0 ≤ value ∧ value ≤ 63 → PowerOf2 value = 2 ^ value.toNat) ∧
    (value < 0 ∨ value ≥ 64 → PowerOf2 value = 0) := by
  constructor
  · intro h
    have hc : value < 64 ∧ value ≥ 0 := ⟨by omega, h.1⟩
    have hn : value.toNat < 64 := by omega
    rw [PowerOf2, if_pos hc, PowerOf2Loop_eq _ _ (by simp [U64]), Nat.one_mul]
    apply Nat.mod_eq_of_lt
    simpa [U64] using Nat.pow_lt_pow_right (by norm_num : 1 < 2) hn
  · intro h
    have hc : ¬ (value < 64 ∧ value ≥ 0) := by omega
    rw [PowerOf2, if_neg hc]

/-! ## `ReverseBytes` -/

theorem foldl_set_spec (f : Nat → Char) : ∀ (n : Nat) (l : List Char), n ≤ l.length →
    ((List.range n).foldl (fun v i => v.set i (f i)) l).length = l.length ∧
    ∀ i, ((List.range n).foldl (fun v i => v.set i (f i)) l)[i]? =
      if i < n then some (f i) else l[i]? := by
  intro n
  induction n with
  | zero => intro l _; simp
  | succ n ih =>
    intro l hl
    obtain ⟨h1, h2⟩ := ih l (by omega)
    rw [List.range_succ, List.foldl_append]
    simp only [List.foldl_cons, List.foldl_nil, List.length_set]
    refine ⟨h1, fun i => ?_⟩
    rw [List.getElem?_set]
    by_cases hi : n = i
    · subst hi
      simp [h1]; omega
    · rw [if_neg hi, h2 i]
      by_cases h3 : i < n
      · have : i < n + 1 := by omega
        simp [h3, this]
      · have : ¬ i < n + 1 := by omega
        simp [h3, this]

theorem ReverseBytes_getElem? (heap : Nat → Char) (b : List Char) (numBytes : Int)
    (hn : numBytes.toNat ≤ b.length) :
    (ReverseBytes heap b numBytes).length = b.length ∧
    ∀ i, (ReverseBytes heap b numBytes)[i]? =
      if i < numBytes.toNat then b[numBytes.toNat - 1 - i]? else b[i]? := by
  unfold ReverseBytes
  simp only
  generalize numBytes.toNat = n at hn
  have ht := foldl_set_spec (fun i => b.getD i '\x00') n ((List.range n).map heap) (by simp)
  generalize (List.range n).foldl (fun t i => t.set i (b.getD i '\x00'))
    ((List.range n).map heap) = temp at ht
  obtain ⟨h1, h2⟩ := foldl_set_spec (fun i => temp.getD (n - i - 1) '\x00') n b hn
  refine ⟨h1, fun i => ?_⟩
  rw [h2 i]
  by_cases hi : i < n
  · have hk : n - i - 1 < n := by omega
    have e : n - 1 - i = n - i - 1 := by omega
    have hb : n - i - 1 < b.length := by omega
    simp only [hi, if_true, e]
    rw [List.getD_eq_getElem?_getD, ht.2 (n - i - 1), if_pos hk]
    simp [List.getD_eq_getElem?_getD, List.getElem?_eq_getElem hb]
  · simp [hi]

/-- C13. For a buffer `b` and `numBytes = n` with `n ≤ length b`, after
`ReverseBytes(b, n)` the buffer has its length, the byte at index `i < n` is the
original byte at index `n - 1 - i`, every byte at an index `≥ n` is unchanged, and a
second `ReverseBytes` with the same `n` gives `b` back.  (For a negative `numBytes` no
loop runs; `toNat` is 0 then.) -/
theorem ReverseBytes_spec (heap : Nat → Char) (b : List Char) (numBytes : Int)
    (hn : numBytes.toNat ≤ b.length) :
    (ReverseBytes heap b numBytes).length = b.length ∧
    (∀ i, i < numBytes.toNat →
      (ReverseBytes heap b numBytes)[i]? = b[numBytes.toNat - 1 - i]?) ∧
    (∀ i, numBytes.toNat ≤ i → (ReverseBytes heap b numBytes)[i]? = b[i]?) ∧
    (∀ heap2, ReverseBytes heap2 (ReverseBytes heap b numBytes) numBytes = b) := by
  obtain ⟨h1, h2⟩ := ReverseBytes_getElem? heap b numBytes hn
  refine ⟨h1, fun i hi => by rw [h2 i, if_pos hi], fun i hi => by rw [h2 i, if_neg (by omega)],
    fun heap2 => ?_⟩
  obtain ⟨h3, h4⟩ := ReverseBytes_getElem? heap2 (ReverseBytes heap b numBytes) numBytes
    (by rw [h1]; exact hn)
  apply List.ext_getElem?
  intro i
  rw [h4 i]
  by_cases hi : i < numBytes.toNat
  · rw [if_pos hi, h2, if_pos (by omega)]
    congr 1; omega
  · rw [if_neg hi, h2, if_neg hi]

/-- C13 on a concrete buffer: the first four of six bytes are reversed. -/
theorem ReverseBytes_spec_witness :
    (ReverseBytes (fun _ => 'z') "abcdef".toList 4).length = "abcdef".toList.length ∧
    (∀ i, i < (4 : Int).toNat →
      (ReverseBytes (fun _ => 'z') "abcdef".toList 4)[i]? =
        "abcdef".toList[(4 : Int).toNat - 1 - i]?) ∧
    (∀ i, (4 : Int).toNat ≤ i →
      (ReverseBytes (fun _ => 'z') "abcdef".toList 4)[i]? = "abcdef".toList[i]?) ∧
    (∀ heap2, ReverseBytes heap2 (ReverseBytes (fun _ => 'z') "abcdef".toList 4) 4 =
      "abcdef".toList) :=
  ReverseBytes_spec (fun _ => 'z') "abcdef".toList 4 (by decide)

/-! ## More on `GetNumber` -/

/-- C14, amended. For every `x` and `def`, `GetNumber(x, x, def, prompt)` leaves the
input as it was and writes exactly one chunk to the output, the message `Using x`
with a newline; no prompt is written. -/
theorem GetNumber_degenerate_io (x dflt : Int) (prompt : List Char) (c : Console) :
    (GetNumber x x dflt prompt c).map (fun r => r.2.stdin) = some c.stdin ∧
    (GetNumber x x dflt prompt c).map (fun r => r.2.stdout) =
      some (c.stdout ++ ["Using ".toList ++ (toString x).toList ++ ['\n']]) := by
  simp [GetNumber]

/-- C14 as stated fails: `GetNumber(5, 5, 0, prompt)` writes `Using 5` to the output,
which is not empty afterwards. -/
theorem GetNumber_degenerate_io_counterexample :
    GetNumber 5 5 0 "> ".toList ⟨[], []⟩ = some (5, ⟨[], ["Using 5\n".toList]⟩) ∧
    ["Using 5\n".toList] ≠ ([] : List (List Char)) := by
  decide

theorem sscanf_d_indep (line : List Char) (r r2 v : Int) (h : sscanf_d line r = (1, v)) :
    sscanf_d line r2 = (1, v) := by
  unfold sscanf_d at h ⊢
  cases hd : line.dropWhile isspace with
  | nil => rw [hd] at h; simp at h
  | cons a s =>
    rw [hd] at h
    simp only at h ⊢
    rcases hs : scanSign (a :: s) with ⟨neg, s1⟩
    rw [hs] at h
    simp only at h ⊢
    cases ht : s1.takeWhile isdigit with
    | nil => rw [ht] at h; simp at h
    | cons d ds => rw [ht] at h; simpa using h

/-- One pass of the loop of `GetNumber` on a line that holds an integer out of range. -/
theorem GetNumberLoop_reject (low high dflt : Int) (prompt line : List Char) (r w : Int)
    (rest out : List (List Char)) (hg : outOfRange low high r = true)
    (hl : sscanf_d line 0 = (1, w)) (hw : outOfRange low high w = true) :
    GetNumberLoop low high dflt prompt r (line :: rest) out =
      GetNumberLoop low high dflt prompt w rest
        (out ++ [prompt, "Value out of range\n".toList]) := by
  rw [GetNumberLoop, if_pos hg, sscanf_d_indep line 0 r w hl]
  simp [hw]

theorem GetNumberLoop_rejects (low high dflt : Int) (prompt : List Char) :
    ∀ (pre : List (List Char)) (r : Int) (more out : List (List Char)),
      outOfRange low high r = true →
      (∀ l ∈ pre, ∃ w, sscanf_d l 0 = (1, w) ∧ outOfRange low high w = true) →
      ∃ r2, outOfRange low high r2 = true ∧
        GetNumberLoop low high dflt prompt r (pre ++ more) out =
          GetNumberLoop low high dflt prompt r2 more
            (out ++ (List.replicate pre.length [prompt, "Value out of range\n".toList]).flatten) := by
  intro pre
  induction pre with
  | nil => intro r more out hg _; exact ⟨r, hg, by simp⟩
  | cons line rest ih =>
    intro r more out hg hl
    obtain ⟨w, hw1, hw2⟩ := hl line (List.mem_cons_self _ _)
    obtain ⟨r2, h2, h3⟩ := ih w more (out ++ [prompt, "Value out of range\n".toList]) hw2
      (fun l hm => hl l (List.mem_cons_of_mem _ hm))
    refine ⟨r2, h2, ?_⟩
    rw [List.cons_append, GetNumberLoop_reject _ _ _ _ _ _ _ _ _ hg hw1 hw2, h3]
    simp [List.replicate_succ]

/-- C17. Retry on out of range: for `low < high`, when the first `k` lines (`pre`)
each hold an integer outside `[low, high]` and the next line holds `v` with
`low ≤ v ≤ high`, `GetNumber` returns `v`, has read exactly those `k + 1` lines, and has
written `k` times the prompt followed by the notice `Value out of range`, then one
more prompt. -/
theorem GetNumber_retry (low high dflt : Int) (prompt : List Char) (pre : List (List Char))
    (line : List Char) (v : Int) (rest out : List (List Char)) (hlt : low < high)
    (hpre : ∀ l ∈ pre, ∃ w, sscanf_d l 0 = (1, w) ∧ (w < low ∨ high < w))
    (hline : sscanf_d line 0 = (1, v)) (hv : low ≤ v ∧ v ≤ high) :
    GetNumber low high dflt prompt ⟨pre ++ line :: rest, out⟩ =
      some (v, ⟨rest, out ++
        (List.replicate pre.length [prompt, "Value out of range\n".toList]).flatten ++
        [prompt]⟩) := by
  have hne : low ≠ high := by omega
  have hg : outOfRange low high (low - 1) = true :=
    (outOfRange_true_iff _ _ _).2 (Or.inl (by omega))
  obtain ⟨r2, h2, h3⟩ := GetNumberLoop_rejects low high dflt prompt pre (low - 1)
    (line :: rest) out hg
    (fun l hm => by
      obtain ⟨w, hw1, hw2⟩ := hpre l hm
      exact ⟨w, hw1, (outOfRange_true_iff _ _ _).2 hw2⟩)
  have hin : outOfRange low high v = false := (outOfRange_false_iff _ _ _).2 hv
  unfold GetNumber
  rw [if_pos hne]
  simp only
  rw [h3, GetNumberLoop, if_pos h2, sscanf_d_indep line 0 r2 v hline]
  simp [hin, GetNumberLoop_done]

/-- C17 on a concrete run: two values out of range, then 7. -/
theorem GetNumber_retry_witness :
    GetNumber 1 10 0 "> ".toList ⟨["50\n".toList, "-3\n".toList] ++ "7\n".toList :: [], []⟩ =
      some (7, ⟨[], [] ++
        (List.replicate ["50\n".toList, "-3\n".toList].length
          ["> ".toList, "Value out of range\n".toList]).flatten ++ ["> ".toList]⟩) :=
  GetNumber_retry 1 10 0 "> ".toList ["50\n".toList, "-3\n".toList] "7\n".toList 7 [] []
    (by decide) (by
      intro l hl
      simp only [List.mem_cons, List.mem_singleton, List.not_mem_nil, or_false] at hl
      rcases hl with rfl | rfl
      · exact ⟨50, by decide, by decide⟩
      · exact ⟨-3, by decide, by decide⟩)
    (by decide) (by decide)

/-! ## More on `GetLastSector` -/

/-- C16. The code at the failing range `low = 0`, `high = 2^64 - 1`: the start value
`low - 1` wraps to `2^64 - 1`, which is inside the range; the loop body never runs,
nothing is written or read, and `2^64 - 1` is returned. -/
theorem GetLastSector_no_pass (prompt : List Char) (suffix0 : Char) (c : Console) :
    GetLastSector 0 (2 ^ 64 - 1) prompt suffix0 c = some (2 ^ 64 - 1, c) := by
  have hg : lsGuard 0 (2 ^ 64 - 1) (lsInit 0 suffix0) = false := by
    rw [lsGuard_false_iff]; simp [lsInit, U64]
  unfold GetLastSector
  rw [GetLastSectorLoop_done _ _ _ _ _ _ hg]
  rfl

theorem lastSectorBody_flag (low high : Nat) (st : LSState) (line : List Char)
    (hf : st.plusFlag = 0) (hl : plusLine line = false) :
    (lastSectorBody low high st line).plusFlag = 0 := by
  have hh : ¬ ((line.dropWhile (fun c => c == ' ')).head? = some '+') := by
    simpa [plusLine] using hl
  unfold lastSectorBody
  simp only [hh, if_false, hf]
  split <;> rfl

/-- Like `GetLastSectorLoop_none_split`, for lines none of which carries a `+`: the
relative flag is still 0 afterwards. -/
theorem GetLastSectorLoop_none_split_flag (low high : Nat) (prompt : List Char) :
    ∀ (pre : List (List Char)) (st : LSState) (out : List (List Char)),
      st.plusFlag = 0 → (∀ l ∈ pre, plusLine l = false) →
      GetLastSectorLoop low high prompt st pre out = none →
      ∃ st2, lsGuard low high st2 = true ∧ st2.plusFlag = 0 ∧
        ∀ more, GetLastSectorLoop low high prompt st (pre ++ more) out =
          GetLastSectorLoop low high prompt st2 more
            (out ++ List.replicate pre.length prompt) := by
  intro pre
  induction pre with
  | nil =>
    intro st out hf _ h
    by_cases hg : lsGuard low high st = true
    · exact ⟨st, hg, hf, fun more => by simp⟩
    · simp [GetLastSectorLoop, hg] at h
  | cons line rest ih =>
    intro st out hf hl h
    by_cases hg : lsGuard low high st = true
    · rw [GetLastSectorLoop_step _ _ _ _ _ _ _ hg] at h
      obtain ⟨st2, h2, hf2, hm⟩ := ih _ _
        (lastSectorBody_flag low high st line hf (hl line (List.mem_cons_self _ _)))
        (fun l hm => hl l (List.mem_cons_of_mem _ hm)) h
      refine ⟨st2, h2, hf2, fun more => ?_⟩
      rw [List.cons_append, GetLastSectorLoop_step _ _ _ _ _ _ _ hg, hm more]
      simp [List.replicate_succ]
    · have hg2 : lsGuard low high st = false := by simpa using hg
      rw [GetLastSectorLoop_done _ _ _ _ _ _ hg2] at h
      simp at h

/-- The loop of `GetLastSector` on its last line, from a guard that holds. -/
theorem GetLastSectorLoop_last (low high : Nat) (prompt : List Char) (st : LSState)
    (line : List Char) (out : List (List Char)) (hg : lsGuard low high st = true) :
    GetLastSectorLoop low high prompt st [line] out =
      if low ≤ (lastSectorBody low high st line).response ∧
          (lastSectorBody low high st line).response ≤ high then
        some ((lastSectorBody low high st line).response, ⟨[], out ++ [prompt]⟩)
      else none := by
  rw [GetLastSectorLoop_step _ _ _ _ _ _ _ hg]
  by_cases hr : low ≤ (lastSectorBody low high st line).response ∧
      (lastSectorBody low high st line).response ≤ high
  · rw [if_pos hr, GetLastSectorLoop_done _ _ _ _ _ _ ((lsGuard_false_iff _ _ _).2 hr)]
  · rw [if_neg hr]
    have hg2 : lsGuard low high (lastSectorBody low high st line) = true := by
      cases h : lsGuard low high (lastSectorBody low high st line) with
      | true => rfl
      | false => exact absurd ((lsGuard_false_iff _ _ _).1 h) hr
    simp [GetLastSectorLoop, hg2]

/-- C15, amended. The number `N` of a line (digits `c0 :: ds`, `N < 2^64`) is scaled
in 64-bit arithmetic.  On a line with a leading `+`, read after lines `pre` on which the
call has not returned, `GetLastSector` returns exactly when
`(N*m mod 2^64 + low - 1) mod 2^64` lies in `[low, high]`, and returns that value.  On a
line without `+`, when no line of `pre` carried a `+`, the same holds with
`N*m mod 2^64`.  These are the exact integers whenever `N*m < 2^64` (and, for the
relative value, `1 ≤ N*m + low` and `N*m + low - 1 < 2^64`). -/
theorem GetLastSector_wraps (low high : Nat) (prompt : List Char) (suffix0 : Char)
    (pre : List (List Char)) (c0 : Char) (ds : List Char) (c : Char) (tail : List Char)
    (out : List (List Char))
    (hN : decValue (c0 :: ds) < 2 ^ 64)
    (h0 : isdigit c0 = true) (hds : ∀ d ∈ ds, isdigit d = true) (hc : isdigit c = false)
    (hpre : GetLastSector low high prompt suffix0 ⟨pre, out⟩ = none) :
    (GetLastSector low high prompt suffix0 ⟨pre ++ [('+' :: (c0 :: ds ++ c :: tail))], out⟩ =
      if low ≤ ((decValue (c0 :: ds) * specMult c) % 2 ^ 64 + low + (2 ^ 64 - 1)) % 2 ^ 64 ∧
          ((decValue (c0 :: ds) * specMult c) % 2 ^ 64 + low + (2 ^ 64 - 1)) % 2 ^ 64 ≤ high
      then some (((decValue (c0 :: ds) * specMult c) % 2 ^ 64 + low + (2 ^ 64 - 1)) % 2 ^ 64,
        ⟨[], out ++ List.replicate (pre.length + 1) prompt⟩)
      else none) ∧
    ((∀ l ∈ pre, plusLine l = false) →
      GetLastSector low high prompt suffix0 ⟨pre ++ [(c0 :: ds ++ c :: tail)], out⟩ =
        if low ≤ (decValue (c0 :: ds) * specMult c) % 2 ^ 64 ∧
            (decValue (c0 :: ds) * specMult c) % 2 ^ 64 ≤ high
        then some ((decValue (c0 :: ds) * specMult c) % 2 ^ 64,
          ⟨[], out ++ List.replicate (pre.length + 1) prompt⟩)
        else none) ∧
    (decValue (c0 :: ds) * specMult c < 2 ^ 64 →
      (decValue (c0 :: ds) * specMult c) % 2 ^ 64 = decValue (c0 :: ds) * specMult c ∧
      (1 ≤ decValue (c0 :: ds) * specMult c + low →
        decValue (c0 :: ds) * specMult c + low - 1 < 2 ^ 64 →
        ((decValue (c0 :: ds) * specMult c) % 2 ^ 64 + low + (2 ^ 64 - 1)) % 2 ^ 64 =
          decValue (c0 :: ds) * specMult c + low - 1)) := by
  have hNU : toU64 false (decValue (c0 :: ds)) = decValue (c0 :: ds) := by
    unfold toU64; simp only [U64]; rw [if_neg (by omega)]; simp
  have hU : U64 = 2 ^ 64 := rfl
  refine ⟨?_, fun hnp => ?_, fun hP => ⟨Nat.mod_eq_of_lt hP, fun h1 h2 => ?_⟩⟩
  · unfold GetLastSector at hpre ⊢
    obtain ⟨st2, hg, hm⟩ := GetLastSectorLoop_none_split _ _ _ _ _ _ hpre
    simp only at hm ⊢
    rw [hm, GetLastSectorLoop_last _ _ _ _ _ _ hg,
      lastSectorBody_rel _ _ _ _ _ _ _ h0 hds hc, hNU, multOf_eq_spec, hU]
    simp only [List.replicate_succ', List.append_assoc]
  · unfold GetLastSector at hpre ⊢
    obtain ⟨st2, hg, hf, hm⟩ := GetLastSectorLoop_none_split_flag _ _ _ _ _ _ rfl hnp hpre
    simp only at hm ⊢
    rw [hm, GetLastSectorLoop_last _ _ _ _ _ _ hg,
      lastSectorBody_abs _ _ _ _ _ _ _ h0 hds hc, hNU, multOf_eq_spec, hU]
    simp only [hf, zero_ne_one, if_false, List.replicate_succ', List.append_assoc]
  · rw [Nat.mod_eq_of_lt hP]
    generalize decValue (c0 :: ds) * specMult c = P at *
    norm_num at h2 ⊢
    omega

/-- C15 as stated fails: `N = 2^63 + 250` fits in 64 bits, with suffix `K` the exact
product `2^64 + 500` is outside `[100, 1000]`, and the code returns 500. -/
theorem GetLastSector_wraps_counterexample :
    decValue "9223372036854776058".toList = 2 ^ 63 + 250 ∧
    decValue "9223372036854776058".toList * specMult 'K' = 2 ^ 64 + 500 ∧
    GetLastSector 100 1000 "> ".toList ' ' ⟨["9223372036854776058K\n".toList], []⟩ =
      some (500, ⟨[], ["> ".toList]⟩) := by
  decide

/-- C15 amended, at the relative line `+2K` with `low = 100`. -/
theorem GetLastSector_wraps_witness :
    GetLastSector 100 1000 "> ".toList ' ' ⟨[] ++ ["+2K\n".toList], []⟩ =
      some (103, ⟨[], [] ++ List.replicate 1 "> ".toList⟩) :=
  (GetLastSector_wraps 100 1000 "> ".toList ' ' [] '2' [] 'K' ['\n'] [] (by decide)
    (by decide) (by simp) (by decide) (by decide)).1

/-! ## More on `GetGUID` -/

theorem packData1_lor (p1 p2 p3 : Nat) (h1 : p1 < 2 ^ 32) (h2 : p2 < 2 ^ 16) :
    packData1 p1 p2 p3 = ((p3 <<< 48) % 2 ^ 64) ||| ((p2 <<< 32) % 2 ^ 64) ||| p1 := by
  have e3 : (p3 <<< 48) % 2 ^ 64 = 2 ^ 48 * (p3 % 2 ^ 16) := by
    rw [Nat.shiftLeft_eq, Nat.mul_comm p3]
    exact Nat.mul_mod_mul_left (2 ^ 48) p3 (2 ^ 16)
  have e2 : (p2 <<< 32) % 2 ^ 64 = 2 ^ 32 * p2 := by
    rw [Nat.shiftLeft_eq, Nat.mul_comm p2]
    apply Nat.mod_eq_of_lt
    norm_num at h2 ⊢; omega
  have hq : p3 % 2 ^ 16 < 2 ^ 16 := Nat.mod_lt _ (by norm_num)
  unfold packData1
  simp only [U64]
  rw [e3, e2]
  generalize p3 % 2 ^ 16 = q at hq
  have hb : 2 ^ 32 * p2 + p1 < 2 ^ 48 := by norm_num at h1 h2 ⊢; omega
  rw [Nat.lor_assoc, ← Nat.mul_add_lt_is_or h1 p2, ← Nat.mul_add_lt_is_or hb q, Nat.add_assoc]
  apply Nat.mod_eq_of_lt
  norm_num at h1 h2 hq ⊢
  omega

/-- C18, amended. In the full-string mode and in the segmented mode of `GetGUID`,
`data1` is `((group3 << 48) + (group2 << 32) + group1) mod 2^64`, an addition of 64-bit
words, of the values the first three `%llx` conversions give.  It is the bitwise OR of
the three words whenever `group1 < 2^32` and `group2 < 2^16`. -/
theorem GetGUID_data1 (rnd : Nat × Nat × Nat × Nat) (junk : Parts) :
    (∀ (temp : List Char) (rest out : List (List Char)), temp.length = 37 →
      temp.head? ≠ some 'r' → temp.head? ≠ some 'R' →
      (GetGUID rnd junk ⟨temp :: rest, out⟩).map (fun r => r.1.data1) =
        some (packData1 (sscanf_llx (substr temp 0 8) junk.part1)
          (sscanf_llx (substr temp 9 4) junk.part2)
          (sscanf_llx (substr temp 14 4) junk.part3))) ∧
    (∀ (t1 t2 t3 t4 t5 : List Char) (rest out : List (List Char)), t1.length ≠ 37 →
      t1.head? ≠ some 'r' → t1.head? ≠ some 'R' →
      (GetGUID rnd junk ⟨t1 :: t2 :: t3 :: t4 :: t5 :: rest, out⟩).map (fun r => r.1.data1) =
        some (packData1 (sscanf_llx t1 junk.part1) (sscanf_llx t2 junk.part2)
          (sscanf_llx t3 junk.part3))) ∧
    (∀ p1 p2 p3 : Nat, packData1 p1 p2 p3 =
      ((p3 <<< 48) % 2 ^ 64 + (p2 <<< 32) % 2 ^ 64 + p1) % 2 ^ 64) ∧
    (∀ p1 p2 p3 : Nat, p1 < 2 ^ 32 → p2 < 2 ^ 16 →
      packData1 p1 p2 p3 = ((p3 <<< 48) % 2 ^ 64) ||| ((p2 <<< 32) % 2 ^ 64) ||| p1) := by
  refine ⟨?_, ?_, fun _ _ _ => rfl, packData1_lor⟩
  · intro temp rest out hlen hr hR
    simp [GetGUID, hlen, hr, hR]
  · intro t1 t2 t3 t4 t5 rest out hlen hr hR
    simp [GetGUID, hlen, hr, hR, fgetsKeep]

/-- C18 as stated fails in both modes: with the segments `100000000`, `1`, `0`, `0`, `0`
the first two groups overlap and the sum `2^33` is not the bitwise OR `2^32`; in the
full string `-0000001-0001-0000-0000-000000000000` the first group reads as `2^64 - 1`,
the sum wraps to `2^32 - 1` and the bitwise OR is `2^64 - 1`. -/
theorem GetGUID_data1_counterexample :
    (sscanf_llx "100000000\n".toList 0 = 2 ^ 32 ∧ sscanf_llx "1\n".toList 0 = 1 ∧
      sscanf_llx "0\n".toList 0 = 0 ∧
      (GetGUID (0, 0, 0, 0) ⟨0, 0, 0, 0, 0⟩
        ⟨["100000000\n".toList, "1\n".toList, "0\n".toList, "0\n".toList, "0\n".toList],
          []⟩).map (fun r => r.1.data1) = some (2 ^ 33) ∧
      (((0 <<< 48) % 2 ^ 64) ||| ((1 <<< 32) % 2 ^ 64) ||| 2 ^ 32) = 2 ^ 32) ∧
    (sscanf_llx (substr "-0000001-0001-0000-0000-000000000000\n".toList 0 8) 0 = 2 ^ 64 - 1 ∧
      sscanf_llx (substr "-0000001-0001-0000-0000-000000000000\n".toList 9 4) 0 = 1 ∧
      sscanf_llx (substr "-0000001-0001-0000-0000-000000000000\n".toList 14 4) 0 = 0 ∧
      (GetGUID (0, 0, 0, 0) ⟨0, 0, 0, 0, 0⟩
        ⟨["-0000001-0001-0000-0000-000000000000\n".toList], []⟩).map
          (fun r => r.1.data1) = some (2 ^ 32 - 1) ∧
      (((0 <<< 48) % 2 ^ 64) ||| ((1 <<< 32) % 2 ^ 64) ||| (2 ^ 64 - 1)) = 2 ^ 64 - 1) := by
  decide

theorem isxdigit_cases (c : Char) (h : isxdigit c = true) :
    (48 ≤ c.toNat ∧ c.toNat ≤ 57) ∨ (65 ≤ c.toNat ∧ c.toNat ≤ 70) ∨
      (97 ≤ c.toNat ∧ c.toNat ≤ 102) := by
  unfold isxdigit hexVal at h
  by_cases h1 : 48 ≤ c.toNat ∧ c.toNat ≤ 57
  · exact Or.inl h1
  · by_cases h2 : 65 ≤ c.toNat ∧ c.toNat ≤ 70
    · exact Or.inr (Or.inl h2)
    · by_cases h3 : 97 ≤ c.toNat ∧ c.toNat ≤ 102
      · exact Or.inr (Or.inr h3)
      · simp [h1, h2, h3] at h

theorem isxdigit_val (c : Char) (h : isxdigit c = true) :
    (hexVal c).getD 0 < 16 ∧ hexChar ((hexVal c).getD 0) = c.toUpper := by
  have e := Char.ofNat_toNat c
  rcases isxdigit_cases c h with h1 | h1 | h1
  · have hv : hexVal c = some (c.toNat - 48) := by simp [hexVal, h1]
    have hu : c.toUpper = c := by
      have : ¬ (c.toNat ≥ 97 ∧ c.toNat ≤ 122) := by omega
      simp [Char.toUpper, this]
    rw [hv, hu]
    refine ⟨by simp; omega, ?_⟩
    have e2 : 48 + (c.toNat - 48) = c.toNat := by omega
    simp only [Option.getD_some, hexChar]
    rw [if_pos (by omega), e2, e]
  · have hn : ¬ (48 ≤ c.toNat ∧ c.toNat ≤ 57) := by omega
    have hv : hexVal c = some (c.toNat - 55) := by simp [hexVal, hn, h1]
    have hu : c.toUpper = c := by
      have : ¬ (c.toNat ≥ 97 ∧ c.toNat ≤ 122) := by omega
      simp [Char.toUpper, this]
    rw [hv, hu]
    refine ⟨by simp; omega, ?_⟩
    have e2 : 55 + (c.toNat - 55) = c.toNat := by omega
    simp only [Option.getD_some, hexChar]
    rw [if_neg (by omega), e2, e]
  · have hn : ¬ (48 ≤ c.toNat ∧ c.toNat ≤ 57) := by omega
    have hn2 : ¬ (65 ≤ c.toNat ∧ c.toNat ≤ 70) := by omega
    have hv : hexVal c = some (c.toNat - 87) := by simp [hexVal, hn, hn2, h1]
    have hu : c.toUpper = Char.ofNat (c.toNat - 32) := by
      have : c.toNat ≥ 97 ∧ c.toNat ≤ 122 := by omega
      simp [Char.toUpper, this]
    rw [hv, hu]
    refine ⟨by simp; omega, ?_⟩
    have e2 : 55 + (c.toNat - 87) = c.toNat - 32 := by omega
    simp only [Option.getD_some, hexChar]
    rw [if_neg (by omega), e2]

theorem isxdigit_facts (c : Char) (h : isxdigit c = true) :
    isspace c = false ∧ c ≠ '-' ∧ c ≠ '+' ∧ c ≠ 'x' ∧ c ≠ 'X' ∧ c ≠ 'r' ∧ c ≠ 'R' := by
  refine ⟨?_, ?_, ?_, ?_, ?_, ?_, ?_⟩
  · cases hs : isspace c with
    | false => rfl
    | true =>
      simp only [isspace, Bool.or_eq_true, beq_iff_eq] at hs
      rcases hs with ((((rfl | rfl) | rfl) | rfl) | rfl) | rfl <;> revert h <;> decide
  all_goals (rintro rfl; revert h; decide)

/-- A run of hexadecimal digits read as a number and written back with as many digits
is the run in upper case. -/
theorem hexFixed_hexValue (h : List Char) : (∀ c ∈ h, isxdigit c = true) →
    hexValue h < 16 ^ h.length ∧ hexFixed h.length (hexValue h) = h.map Char.toUpper := by
  induction h using List.reverseRecOn with
  | nil => intro _; simp [hexValue, hexFixed]
  | append_singleton l c ih =>
    intro hall
    obtain ⟨hlt, hfix⟩ := ih (fun x hx => hall x (List.mem_append_left _ hx))
    obtain ⟨hd, hu⟩ := isxdigit_val c (hall c (by simp))
    rw [hexValue_snoc, List.length_append, List.length_singleton]
    generalize (hexVal c).getD 0 = d at hd hu
    have e1 : (16 * hexValue l + d) / 16 = hexValue l := by omega
    have e2 : (16 * hexValue l + d) % 16 = d := by omega
    refine ⟨by rw [pow_succ]; omega, ?_⟩
    rw [hexFixed, e1, e2, hfix, hu]
    simp

theorem sscanf_llx_token (h tail : List Char) (junk : Nat)
    (hh : ∀ c ∈ h, isxdigit c = true) (h2 : 2 ≤ h.length) (h16 : h.length ≤ 16)
    (ht : ∀ c t, tail = c :: t → isxdigit c = false) :
    sscanf_llx (h ++ tail) junk = hexValue h := by
  have hv : hexValue h < U64 := by
    have h1 := (hexFixed_hexValue h hh).1
    have h3 : (16 : Nat) ^ h.length ≤ 16 ^ 16 := Nat.pow_le_pow_right (by norm_num) h16
    have : (16 : Nat) ^ 16 = U64 := by norm_num [U64]
    omega
  match h, hh, h2, hv with
  | [], _, h2, _ => simp at h2
  | [_], _, h2, _ => simp at h2
  | c1 :: c2 :: r, hh, _, hv =>
    have f1 := isxdigit_facts c1 (hh c1 (by simp))
    have f2 := isxdigit_facts c2 (hh c2 (by simp))
    have htw : (c1 :: c2 :: r ++ tail).takeWhile isxdigit = c1 :: c2 :: r := by
      rw [List.takeWhile_append_of_pos hh]
      cases tail with
      | nil => simp
      | cons c t => simp [List.takeWhile, ht c t rfl]
    have hdw : (c1 :: c2 :: r ++ tail).dropWhile isspace = c1 :: c2 :: r ++ tail := by
      simp [List.dropWhile, f1.1]
    have hss : scanSign (c1 :: c2 :: r ++ tail) = (false, c1 :: c2 :: r ++ tail) := by
      simp only [List.cons_append]
      unfold scanSign
      split
      · rename_i h; simp only [List.cons.injEq] at h; exact absurd h.1 f1.2.1
      · rename_i h; simp only [List.cons.injEq] at h; exact absurd h.1 f1.2.2.1
      · rfl
    have htu : toU64 false (hexValue (c1 :: c2 :: r)) = hexValue (c1 :: c2 :: r) := by
      unfold toU64; rw [if_neg (by omega)]; simp
    unfold sscanf_llx
    rw [hdw, hss]
    simp only
    split
    · rename_i h; simp only [List.cons_append, List.cons.injEq] at h
      exact absurd h.2.1 f2.2.2.2.1
    · rename_i h; simp only [List.cons_append, List.cons.injEq] at h
      exact absurd h.2.1 f2.2.2.2.2.1
    · rw [htw]; exact htu

theorem substr_mid (pre tok post : List Char) (pos n : Nat) (hp : pre.length = pos)
    (hn : tok.length = n) : substr (pre ++ (tok ++ post)) pos n = tok := by
  subst hp hn
  simp [substr]

theorem hexToken_iff (n : Nat) (h : List Char) :
    hexToken n h = true ↔ h.length = n ∧ ∀ c ∈ h, isxdigit c = true := by
  simp [hexToken]

theorem byte_split (v : Nat) : ∃ q r, r < 256 ∧ v = 256 * q + r :=
  ⟨v / 256, v % 256, Nat.mod_lt _ (by norm_num), (Nat.div_add_mod v 256).symm⟩

theorem split2 (v : Nat) (h : v < 16 ^ 4) :
    ∃ b0 b1, b0 < 256 ∧ b1 < 256 ∧ v = b0 * 256 + b1 := by
  obtain ⟨q, r, hr, e⟩ := byte_split v
  refine ⟨q, r, ?_, hr, by omega⟩
  norm_num at h; omega

theorem split6 (v : Nat) (h : v < 16 ^ 12) :
    ∃ b2 b3 b4 b5 b6 b7, b2 < 256 ∧ b3 < 256 ∧ b4 < 256 ∧ b5 < 256 ∧ b6 < 256 ∧ b7 < 256 ∧
      v = b2 * 1099511627776 + b3 * 4294967296 + b4 * 16777216 + b5 * 65536 + b6 * 256 + b7 := by
  obtain ⟨q1, b7, h7, e1⟩ := byte_split v
  obtain ⟨q2, b6, h6, e2⟩ := byte_split q1
  obtain ⟨q3, b5, h5, e3⟩ := byte_split q2
  obtain ⟨q4, b4, h4, e4⟩ := byte_split q3
  obtain ⟨q5, b3, h3, e5⟩ := byte_split q4
  refine ⟨q5, b3, b4, b5, b6, b7, ?_, h3, h4, h5, h6, h7, by omega⟩
  norm_num at h; omega

theorem bytes_extract (b0 b1 b2 b3 b4 b5 b6 b7 B : Nat) (h0 : b0 < 256) (h1 : b1 < 256)
    (h2 : b2 < 256) (h3 : b3 < 256) (h4 : b4 < 256) (h5 : b5 < 256) (h6 : b6 < 256)
    (h7 : b7 < 256)
    (hB : B = b0 + b1 * 256 + b2 * 65536 + b3 * 16777216 + b4 * 4294967296 +
      b5 * 1099511627776 + b6 * 281474976710656 + b7 * 72057594037927936) :
    B % 2 ^ 8 = b0 ∧ B / 2 ^ 8 % 2 ^ 8 = b1 ∧ B / 2 ^ 16 % 2 ^ 8 = b2 ∧
    B / 2 ^ 24 % 2 ^ 8 = b3 ∧ B / 2 ^ 32 % 2 ^ 8 = b4 ∧ B / 2 ^ 40 % 2 ^ 8 = b5 ∧
    B / 2 ^ 48 % 2 ^ 8 = b6 ∧ B / 2 ^ 56 % 2 ^ 8 = b7 := by
  norm_num
  refine ⟨by omega, by omega, by omega, by omega, by omega, by omega, by omega, by omega⟩

theorem packData1_sum (v1 v2 v3 : Nat) (h1 : v1 < 16 ^ 8) (h2 : v2 < 16 ^ 4)
    (h3 : v3 < 16 ^ 4) :
    (packData1 v1 v2 v3) % 2 ^ 32 = v1 ∧ (packData1 v1 v2 v3) / 2 ^ 32 % 2 ^ 16 = v2 ∧
    (packData1 v1 v2 v3) / 2 ^ 48 % 2 ^ 16 = v3 := by
  have hd1 : packData1 v1 v2 v3 = v1 + v2 * 4294967296 + v3 * 281474976710656 := by
    simp only [packData1, Nat.shiftLeft_eq, U64]
    norm_num at h1 h2 h3 ⊢
    omega
  rw [hd1]
  norm_num at h1 h2 h3 ⊢
  refine ⟨by omega, by omega, by omega⟩

theorem hexFixed_bytes2 (b0 b1 : Nat) (h1 : b1 < 256) :
    hexFixed 2 b0 ++ hexFixed 2 b1 = hexFixed 4 (b0 * 256 + b1) := by
  rw [hexFixed_append 2 _ 2 _ (by norm_num; omega)]
  norm_num

theorem hexFixed_bytes6 (b2 b3 b4 b5 b6 b7 : Nat) (h3 : b3 < 256) (h4 : b4 < 256)
    (h5 : b5 < 256) (h6 : b6 < 256) (h7 : b7 < 256) :
    hexFixed 2 b2 ++ (hexFixed 2 b3 ++ (hexFixed 2 b4 ++ (hexFixed 2 b5 ++
      (hexFixed 2 b6 ++ hexFixed 2 b7)))) =
      hexFixed 12 (b2 * 1099511627776 + b3 * 4294967296 + b4 * 16777216 + b5 * 65536 +
        b6 * 256 + b7) := by
  rw [hexFixed_append 2 _ 2 _ (by norm_num; omega),
    hexFixed_append 2 _ 4 _ (by norm_num; omega),
    hexFixed_append 2 _ 6 _ (by norm_num; omega),
    hexFixed_append 2 _ 8 _ (by norm_num; omega),
    hexFixed_append 2 _ 10 _ (by norm_num; omega)]
  norm_num
  apply congrArg
  omega

theorem GUIDToStr_pack (v1 v2 v3 v4 v5 : Nat) (h1 : v1 < 16 ^ 8) (h2 : v2 < 16 ^ 4)
    (h3 : v3 < 16 ^ 4) (h4 : v4 < 16 ^ 4) (h5 : v5 < 16 ^ 12) :
    GUIDToStr ⟨packData1 v1 v2 v3, packData2 v4 v5⟩ =
      hexFixed 8 v1 ++ '-' :: (hexFixed 4 v2 ++ '-' :: (hexFixed 4 v3 ++
        '-' :: (hexFixed 4 v4 ++ '-' :: hexFixed 12 v5))) := by
  obtain ⟨b0, b1, g0, g1, e4⟩ := split2 v4 h4
  obtain ⟨b2, b3, b4, b5, b6, b7, g2, g3, g4, g5, g6, g7, e5⟩ := split6 v5 h5
  obtain ⟨a1, a2, a3⟩ := packData1_sum v1 v2 v3 h1 h2 h3
  have hd2 := packData2_bytes b0 b1 b2 b3 b4 b5 b6 b7 g0 g1 g2 g3 g4 g5 g6 g7
  obtain ⟨x0, x1, x2, x3, x4, x5, x6, x7⟩ :=
    bytes_extract b0 b1 b2 b3 b4 b5 b6 b7 _ g0 g1 g2 g3 g4 g5 g6 g7 hd2
  rw [GUIDToStr_fixed]
  simp only [a1, a2, a3]
  rw [e4, e5, x0, x1, x2, x3, x4, x5, x6, x7, ← hexFixed_bytes2 b0 b1 g1,
    ← hexFixed_bytes6 b2 b3 b4 b5 b6 b7 g3 g4 g5 g6 g7]
  simp only [List.append_assoc]

theorem sscanf_llx_group (n : Nat) (h : List Char) (junk : Nat) (hn2 : 2 ≤ n) (hn16 : n ≤ 16)
    (ht : hexToken n h = true) :
    sscanf_llx h junk = hexValue h ∧ sscanf_llx (h ++ ['\n']) junk = hexValue h ∧
    hexValue h < 16 ^ n ∧ hexFixed n (hexValue h) = h.map Char.toUpper := by
  obtain ⟨hl, hx⟩ := (hexToken_iff n h).1 ht
  subst hl
  have h1 := sscanf_llx_token h [] junk hx hn2 hn16 (fun c t e => by simp at e)
  have h2 := sscanf_llx_token h ['\n'] junk hx hn2 hn16 (fun c t e => by
    simp only [List.cons.injEq] at e
    rw [← e.1]; decide)
  rw [List.append_nil] at h1
  exact ⟨h1, h2, hexFixed_hexValue h hx⟩

/-- The full-string mode of `GetGUID` on a canonical string. -/
theorem GetGUID_full_tokens (rnd : Nat × Nat × Nat × Nat) (junk : Parts)
    (h1 h2 h3 h4 h5 : List Char) (rest out : List (List Char))
    (t1 : hexToken 8 h1 = true) (t2 : hexToken 4 h2 = true) (t3 : hexToken 4 h3 = true)
    (t4 : hexToken 4 h4 = true) (t5 : hexToken 12 h5 = true) :
    (GetGUID rnd junk ⟨(canonicalStr h1 h2 h3 h4 h5 ++ ['\n']) :: rest, out⟩).map
        (fun r => r.1) =
      some ⟨packData1 (hexValue h1) (hexValue h2) (hexValue h3),
        packData2 (hexValue h4) (hexValue h5)⟩ := by
  obtain ⟨l1, x1⟩ := (hexToken_iff _ _).1 t1
  obtain ⟨l2, x2⟩ := (hexToken_iff _ _).1 t2
  obtain ⟨l3, x3⟩ := (hexToken_iff _ _).1 t3
  obtain ⟨l4, x4⟩ := (hexToken_iff _ _).1 t4
  obtain ⟨l5, x5⟩ := (hexToken_iff _ _).1 t5
  have s1 : substr (canonicalStr h1 h2 h3 h4 h5 ++ ['\n']) 0 8 = h1 := by
    have := substr_mid [] h1 ('-' :: (h2 ++ '-' :: (h3 ++ '-' :: (h4 ++ '-' :: h5))) ++ ['\n'])
      0 8 rfl l1
    simpa [canonicalStr] using this
  have s2 : substr (canonicalStr h1 h2 h3 h4 h5 ++ ['\n']) 9 4 = h2 := by
    have := substr_mid (h1 ++ ['-']) h2 ('-' :: (h3 ++ '-' :: (h4 ++ '-' :: h5)) ++ ['\n'])
      9 4 (by simp [l1]) l2
    simpa [canonicalStr] using this
  have s3 : substr (canonicalStr h1 h2 h3 h4 h5 ++ ['\n']) 14 4 = h3 := by
    have := substr_mid (h1 ++ '-' :: (h2 ++ ['-'])) h3 ('-' :: (h4 ++ '-' :: h5) ++ ['\n'])
      14 4 (by simp [l1, l2]) l3
    simpa [canonicalStr] using this
  have s4 : substr (canonicalStr h1 h2 h3 h4 h5 ++ ['\n']) 19 4 = h4 := by
    have := substr_mid (h1 ++ '-' :: (h2 ++ '-' :: (h3 ++ ['-']))) h4 ('-' :: h5 ++ ['\n'])
      19 4 (by simp [l1, l2, l3]) l4
    simpa [canonicalStr] using this
  have s5 : substr (canonicalStr h1 h2 h3 h4 h5 ++ ['\n']) 24 12 = h5 := by
    have := substr_mid (h1 ++ '-' :: (h2 ++ '-' :: (h3 ++ '-' :: (h4 ++ ['-'])))) h5 ['\n']
      24 12 (by simp [l1, l2, l3, l4]) l5
    simpa [canonicalStr] using this
  have hlen : (canonicalStr h1 h2 h3 h4 h5 ++ ['\n']).length = 37 := by
    simp [canonicalStr, l1, l2, l3, l4, l5]
  have hhead : ∃ c, isxdigit c = true ∧
      (canonicalStr h1 h2 h3 h4 h5 ++ ['\n']).head? = some c := by
    match h1, l1, x1 with
    | c :: t, _, x1 => exact ⟨c, x1 c (by simp), by simp [canonicalStr]⟩
  obtain ⟨c, hc, hh⟩ := hhead
  have f := isxdigit_facts c hc
  have g1 := (sscanf_llx_group 8 h1 junk.part1 (by norm_num) (by norm_num) t1).1
  have g2 := (sscanf_llx_group 4 h2 junk.part2 (by norm_num) (by norm_num) t2).1
  have g3 := (sscanf_llx_group 4 h3 junk.part3 (by norm_num) (by norm_num) t3).1
  have g4 := (sscanf_llx_group 4 h4 junk.part4 (by norm_num) (by norm_num) t4).1
  have g5 := (sscanf_llx_group 12 h5 junk.part5 (by norm_num) (by norm_num) t5).1
  simp [GetGUID, hh, f.2.2.2.2.2.1, f.2.2.2.2.2.2, hlen, s1, s2, s3, s4, s5, g1, g2, g3, g4, g5]

/-- The segmented mode of `GetGUID` on five lines, one token each. -/
theorem GetGUID_segmented_tokens (rnd : Nat × Nat × Nat × Nat) (junk : Parts)
    (h1 h2 h3 h4 h5 : List Char) (rest out : List (List Char))
    (t1 : hexToken 8 h1 = true) (t2 : hexToken 4 h2 = true) (t3 : hexToken 4 h3 = true)
    (t4 : hexToken 4 h4 = true) (t5 : hexToken 12 h5 = true) :
    (GetGUID rnd junk ⟨(h1 ++ ['\n']) :: (h2 ++ ['\n']) :: (h3 ++ ['\n']) :: (h4 ++ ['\n']) ::
        (h5 ++ ['\n']) :: rest, out⟩).map (fun r => r.1) =
      some ⟨packData1 (hexValue h1) (hexValue h2) (hexValue h3),
        packData2 (hexValue h4) (hexValue h5)⟩ := by
  obtain ⟨l1, x1⟩ := (hexToken_iff _ _).1 t1
  have hlen : (h1 ++ ['\n']).length ≠ 37 := by simp [l1]
  have hhead : ∃ c, isxdigit c = true ∧ (h1 ++ ['\n']).head? = some c := by
    match h1, l1, x1 with
    | c :: t, _, x1 => exact ⟨c, x1 c (by simp), by simp⟩
  obtain ⟨c, hc, hh⟩ := hhead
  have f := isxdigit_facts c hc
  have g1 := (sscanf_llx_group 8 h1 junk.part1 (by norm_num) (by norm_num) t1).2.1
  have g2 := (sscanf_llx_group 4 h2 junk.part2 (by norm_num) (by norm_num) t2).2.1
  have g3 := (sscanf_llx_group 4 h3 junk.part3 (by norm_num) (by norm_num) t3).2.1
  have g4 := (sscanf_llx_group 4 h4 junk.part4 (by norm_num) (by norm_num) t4).2.1
  have g5 := (sscanf_llx_group 12 h5 junk.part5 (by norm_num) (by norm_num) t5).2.1
  generalize h1 ++ ['\n'] = T1 at hlen hh g1
  generalize h2 ++ ['\n'] = T2 at g2
  generalize h3 ++ ['\n'] = T3 at g3
  generalize h4 ++ ['\n'] = T4 at g4
  generalize h5 ++ ['\n'] = T5 at g5
  have hr : T1.head? ≠ some 'r' := by rw [hh]; simpa using f.2.2.2.2.2.1
  have hR : T1.head? ≠ some 'R' := by rw [hh]; simpa using f.2.2.2.2.2.2
  simp [GetGUID, hlen, hr, hR, fgetsKeep, g1, g2, g3, g4, g5]

theorem GUIDToStr_tokens (h1 h2 h3 h4 h5 : List Char)
    (t1 : hexToken 8 h1 = true) (t2 : hexToken 4 h2 = true) (t3 : hexToken 4 h3 = true)
    (t4 : hexToken 4 h4 = true) (t5 : hexToken 12 h5 = true) :
    GUIDToStr ⟨packData1 (hexValue h1) (hexValue h2) (hexValue h3),
        packData2 (hexValue h4) (hexValue h5)⟩ =
      (canonicalStr h1 h2 h3 h4 h5).map Char.toUpper := by
  obtain ⟨-, -, b1, u1⟩ := sscanf_llx_group 8 h1 0 (by norm_num) (by norm_num) t1
  obtain ⟨-, -, b2, u2⟩ := sscanf_llx_group 4 h2 0 (by norm_num) (by norm_num) t2
  obtain ⟨-, -, b3, u3⟩ := sscanf_llx_group 4 h3 0 (by norm_num) (by norm_num) t3
  obtain ⟨-, -, b4, u4⟩ := sscanf_llx_group 4 h4 0 (by norm_num) (by norm_num) t4
  obtain ⟨-, -, b5, u5⟩ := sscanf_llx_group 12 h5 0 (by norm_num) (by norm_num) t5
  have hd : Char.toUpper '-' = '-' := by decide
  rw [GUIDToStr_pack _ _ _ _ _ b1 b2 b3 b4 b5, u1, u2, u3, u4, u5]
  simp [canonicalStr, hd]

/-- C19. For tokens `h1 .. h5` of exactly 8, 4, 4, 4 and 12 hexadecimal digits,
`GetGUID` fed the five lines `h1`, ..., `h5` (segmented prompts) and `GetGUID` fed the
single line `h1-h2-h3-h4-h5` both return, and return the same GUID, whatever the random
draws, the indeterminate locals and the rest of the input are. -/
theorem GetGUID_segmented_eq_full (rnd rnd2 : Nat × Nat × Nat × Nat) (junk junk2 : Parts)
    (h1 h2 h3 h4 h5 : List Char) (rest rest2 out out2 : List (List Char))
    (t1 : hexToken 8 h1 = true) (t2 : hexToken 4 h2 = true) (t3 : hexToken 4 h3 = true)
    (t4 : hexToken 4 h4 = true) (t5 : hexToken 12 h5 = true) :
    ∃ g : GUIDData,
      (GetGUID rnd junk ⟨(h1 ++ ['\n']) :: (h2 ++ ['\n']) :: (h3 ++ ['\n']) ::
        (h4 ++ ['\n']) :: (h5 ++ ['\n']) :: rest, out⟩).map (fun r => r.1) = some g ∧
      (GetGUID rnd2 junk2 ⟨(canonicalStr h1 h2 h3 h4 h5 ++ ['\n']) :: rest2, out2⟩).map
        (fun r => r.1) = some g :=
  ⟨_, GetGUID_segmented_tokens rnd junk h1 h2 h3 h4 h5 rest out t1 t2 t3 t4 t5,
    GetGUID_full_tokens rnd2 junk2 h1 h2 h3 h4 h5 rest2 out2 t1 t2 t3 t4 t5⟩

/-- C19 at the tokens `aabbCCDD`, `3344`, `1122`, `0807`, `0605040302f1`. -/
theorem GetGUID_segmented_eq_full_witness :
    ∃ g : GUIDData,
      (GetGUID (1, 2, 3, 4) ⟨0, 0, 0, 0, 0⟩ ⟨("aabbCCDD".toList ++ ['\n']) ::
        ("3344".toList ++ ['\n']) :: ("1122".toList ++ ['\n']) ::
        ("0807".toList ++ ['\n']) :: ("0605040302f1".toList ++ ['\n']) :: [], []⟩).map
          (fun r => r.1) = some g ∧
      (GetGUID (5, 6, 7, 8) ⟨9, 9, 9, 9, 9⟩
        ⟨(canonicalStr "aabbCCDD".toList "3344".toList "1122".toList "0807".toList
          "0605040302f1".toList ++ ['\n']) :: [], []⟩).map (fun r => r.1) = some g :=
  GetGUID_segmented_eq_full (1, 2, 3, 4) (5, 6, 7, 8) ⟨0, 0, 0, 0, 0⟩ ⟨9, 9, 9, 9, 9⟩
    "aabbCCDD".toList "3344".toList "1122".toList "0807".toList "0605040302f1".toList
    [] [] [] [] (by decide) (by decide) (by decide) (by decide) (by decide)

/-- C20. For a string `s` of five groups of 8, 4, 4, 4 and 12 hexadecimal digits of
either case joined by `-`, `GetGUID` in full-string mode on `s` and a newline returns a
GUID `g` with `GUIDToStr g` equal to `s` in upper case.  Hence two such strings that
give the same GUID are equal up to letter case. -/
theorem GUIDToStr_GetGUID_canonical (rnd : Nat × Nat × Nat × Nat) (junk : Parts)
    (h1 h2 h3 h4 h5 : List Char) (rest out : List (List Char))
    (t1 : hexToken 8 h1 = true) (t2 : hexToken 4 h2 = true) (t3 : hexToken 4 h3 = true)
    (t4 : hexToken 4 h4 = true) (t5 : hexToken 12 h5 = true) :
    (∃ g : GUIDData,
      (GetGUID rnd junk ⟨(canonicalStr h1 h2 h3 h4 h5 ++ ['\n']) :: rest, out⟩).map
        (fun r => r.1) = some g ∧
      GUIDToStr g = (canonicalStr h1 h2 h3 h4 h5).map Char.toUpper) ∧
    (∀ (k1 k2 k3 k4 k5 : List Char) (rnd2 : Nat × Nat × Nat × Nat) (junk2 : Parts)
      (rest2 out2 : List (List Char)),
      hexToken 8 k1 = true → hexToken 4 k2 = true → hexToken 4 k3 = true →
      hexToken 4 k4 = true → hexToken 12 k5 = true →
      (GetGUID rnd2 junk2 ⟨(canonicalStr k1 k2 k3 k4 k5 ++ ['\n']) :: rest2, out2⟩).map
          (fun r => r.1) =
        (GetGUID rnd junk ⟨(canonicalStr h1 h2 h3 h4 h5 ++ ['\n']) :: rest, out⟩).map
          (fun r => r.1) →
      (canonicalStr k1 k2 k3 k4 k5).map Char.toUpper =
        (canonicalStr h1 h2 h3 h4 h5).map Char.toUpper) := by
  have hf := GetGUID_full_tokens rnd junk h1 h2 h3 h4 h5 rest out t1 t2 t3 t4 t5
  have hu := GUIDToStr_tokens h1 h2 h3 h4 h5 t1 t2 t3 t4 t5
  refine ⟨⟨_, hf, hu⟩, ?_⟩
  intro k1 k2 k3 k4 k5 rnd2 junk2 rest2 out2 s1 s2 s3 s4 s5 heq
  rw [GetGUID_full_tokens rnd2 junk2 k1 k2 k3 k4 k5 rest2 out2 s1 s2 s3 s4 s5, hf] at heq
  have hg := Option.some.inj heq
  rw [← hu, ← GUIDToStr_tokens k1 k2 k3 k4 k5 s1 s2 s3 s4 s5, hg]

/-- C20 at the string `aabbCCDD-3344-1122-0807-0605040302f1`. -/
theorem GUIDToStr_GetGUID_canonical_witness :
    ∃ g : GUIDData,
      (GetGUID (1, 2, 3, 4) ⟨0, 0, 0, 0, 0⟩
        ⟨(canonicalStr "aabbCCDD".toList "3344".toList "1122".toList "0807".toList
          "0605040302f1".toList ++ ['\n']) :: [], []⟩).map (fun r => r.1) = some g ∧
      GUIDToStr g = (canonicalStr "aabbCCDD".toList "3344".toList "1122".toList
        "0807".toList "0605040302f1".toList).map Char.toUpper :=
  (GUIDToStr_GetGUID_canonical (1, 2, 3, 4) ⟨0, 0, 0, 0, 0⟩
    "aabbCCDD".toList "3344".toList "1122".toList "0807".toList "0605040302f1".toList
    [] [] (by decide) (by decide) (by decide) (by decide) (by decide)).1

end Support
